import Mathlib

/-!
Verification of the multi-touch attribution engine
(`skills/campaign-analytics/scripts/attribution_analyzer.py`).

The Python source is embedded shallowly:
* timestamps are parsed by a character-level model of `datetime.strptime`
  restricted to the three formats the script tries;
* the credit ledger (a Python dict built with `credits.get(ch, 0.0) + x`)
  is an association list with first-match lookup and
  replace-first-or-append update;
* exceptions become `Except PyError`;
* floats become exact rationals (reals for the time-decay model, whose
  weights use `exp`).
-/

namespace AttributionAnalyzer

/-! ### Timestamp parsing (`parse_timestamp`) -/

/-- A naive (timezone-free) datetime, the result of a successful
`datetime.strptime`. -/
structure DateTime where
  year : Nat
  month : Nat
  day : Nat
  hour : Nat
  minute : Nat
  second : Nat
deriving DecidableEq, Repr, Inhabited

/-- The exceptions the script can raise while computing. -/
inductive PyError where
  | valueError (msg : String)
  | zeroDivisionError
deriving DecidableEq, Repr

/-- Numeric value of a decimal digit character, if it is one. -/
def digit? (c : Char) : Option Nat :=
  if c.isDigit then some (c.toNat - 48) else none

/-- `%Y`: exactly four decimal digits (CPython compiles `%Y` to `\d\d\d\d`). -/
def parseYear : List Char → Option (Nat × List Char)
  | a :: b :: c :: d :: rest => do
    let x ← digit? a
    let y ← digit? b
    let z ← digit? c
    let w ← digit? d
    pure (((x * 10 + y) * 10 + z) * 10 + w, rest)
  | _ => none

/-- `%m`: CPython regex `1[0-2]|0[1-9]|[1-9]` (ordered alternation; since the
character after a two-digit match must be a non-digit separator, ordered
choice without backtracking is equivalent here). -/
def parseMonth : List Char → Option (Nat × List Char)
  | [] => none
  | c1 :: rest1 =>
    match c1, rest1 with
    | '1', c2 :: rest2 =>
      if '0' ≤ c2 ∧ c2 ≤ '2' then some (10 + (c2.toNat - 48), rest2)
      else some (1, rest1)
    | '0', c2 :: rest2 =>
      if '1' ≤ c2 ∧ c2 ≤ '9' then some (c2.toNat - 48, rest2) else none
    | c, rest =>
      if '1' ≤ c ∧ c ≤ '9' then some (c.toNat - 48, rest) else none

/-- `%d`: CPython regex `3[01]|[12]\d|0[1-9]|[1-9]`. -/
def parseDay : List Char → Option (Nat × List Char)
  | [] => none
  | c1 :: rest1 =>
    match c1, rest1 with
    | '3', c2 :: rest2 =>
      if c2 = '0' ∨ c2 = '1' then some (30 + (c2.toNat - 48), rest2)
      else some (3, rest1)
    | '1', c2 :: rest2 =>
      if c2.isDigit then some (10 + (c2.toNat - 48), rest2) else some (1, rest1)
    | '2', c2 :: rest2 =>
      if c2.isDigit then some (20 + (c2.toNat - 48), rest2) else some (2, rest1)
    | '0', c2 :: rest2 =>
      if '1' ≤ c2 ∧ c2 ≤ '9' then some (c2.toNat - 48, rest2) else none
    | c, rest =>
      if '1' ≤ c ∧ c ≤ '9' then some (c.toNat - 48, rest) else none

/-- `%H`: CPython regex `2[0-3]|[0-1]\d|\d`. -/
def parseHour : List Char → Option (Nat × List Char)
  | [] => none
  | c1 :: rest1 =>
    match c1, rest1 with
    | '2', c2 :: rest2 =>
      if '0' ≤ c2 ∧ c2 ≤ '3' then some (20 + (c2.toNat - 48), rest2)
      else some (2, rest1)
    | '0', c2 :: rest2 =>
      if c2.isDigit then some (c2.toNat - 48, rest2) else some (0, rest1)
    | '1', c2 :: rest2 =>
      if c2.isDigit then some (10 + (c2.toNat - 48), rest2) else some (1, rest1)
    | c, rest =>
      if c.isDigit then some (c.toNat - 48, rest) else none

/-- `%M`/`%S`: CPython regex `[0-5]\d|\d` (values `60`/`61` that `%S` also
admits are rejected afterwards by the `datetime` constructor and hence never
produce a parse, so they are folded into the failure case). -/
def parseMinSec : List Char → Option (Nat × List Char)
  | [] => none
  | c1 :: rest1 =>
    if '0' ≤ c1 ∧ c1 ≤ '5' then
      match rest1 with
      | c2 :: rest2 =>
        if c2.isDigit then some ((c1.toNat - 48) * 10 + (c2.toNat - 48), rest2)
        else some (c1.toNat - 48, rest1)
      | [] => some (c1.toNat - 48, rest1)
    else if c1.isDigit then some (c1.toNat - 48, rest1)
    else none

/-- Consume one expected literal character (`-` and `:`, which have no
case, so IGNORECASE is irrelevant for them). -/
def expectChar (c : Char) : List Char → Option (List Char)
  | [] => none
  | d :: rest => if d = c then some rest else none

/-- Consume one expected literal character case-insensitively: CPython's
`_strptime` compiles the whole format regex with `IGNORECASE`, so the `T`
of `%Y-%m-%dT%H:%M:%S` also matches a lowercase `t` (and `T`/`t` are the
only characters whose lowercase is `t`). -/
def expectCharCI (c : Char) : List Char → Option (List Char)
  | [] => none
  | d :: rest => if d.toLower = c.toLower then some rest else none

/-- Python's regex `\s` over `str` patterns: the ASCII whitespace
`[ \t\n\v\f\r]` plus the Unicode whitespace code points recognised by
CPython's `sre` engine. -/
def isPySpace (c : Char) : Bool :=
  (0x09 ≤ c.toNat && c.toNat ≤ 0x0d) || c.toNat = 0x20 ||
  (0x1c ≤ c.toNat && c.toNat ≤ 0x1f) || c.toNat = 0x85 ||
  c.toNat = 0xa0 || c.toNat = 0x1680 ||
  (0x2000 ≤ c.toNat && c.toNat ≤ 0x200a) ||
  c.toNat = 0x2028 || c.toNat = 0x2029 || c.toNat = 0x202f ||
  c.toNat = 0x205f || c.toNat = 0x3000

/-- Drop a (possibly empty) run of whitespace characters. -/
def skipSpaces : List Char → List Char
  | [] => []
  | c :: rest => if isPySpace c then skipSpaces rest else c :: rest

/-- Consume one or more whitespace characters: CPython's `_strptime`
replaces every whitespace run in the format with `\s+`, so the space of
`%Y-%m-%d %H:%M:%S` matches any non-empty whitespace run.  Greedy
consumption without backtracking is equivalent to the regex here, because
the following `%H` must start with a digit and `\s` never matches a
digit. -/
def parseSpaces : List Char → Option (List Char)
  | [] => none
  | c :: rest => if isPySpace c then some (skipSpaces rest) else none

/-- Gregorian leap-year rule (as in Python's `calendar.isleap`). -/
def isLeapYear (y : Nat) : Bool :=
  y % 4 == 0 && (y % 100 != 0 || y % 400 == 0)

/-- Length of a month in a given year. -/
def daysInMonth (y m : Nat) : Nat :=
  if m = 2 then (if isLeapYear y then 29 else 28)
  else if m = 4 ∨ m = 6 ∨ m = 9 ∨ m = 11 then 30
  else 31

/-- Validation performed by the `datetime` constructor: the regex-level match
must also denote a real calendar date and clock time. -/
def mkDateTime? (y m d hh mi ss : Nat) : Option DateTime :=
  if 1 ≤ y ∧ 1 ≤ m ∧ m ≤ 12 ∧ 1 ≤ d ∧ d ≤ daysInMonth y m ∧
      hh ≤ 23 ∧ mi ≤ 59 ∧ ss ≤ 59
  then some ⟨y, m, d, hh, mi, ss⟩ else none

/-- The `%Y-%m-%d` core shared by all three formats. -/
def parseDatePart (cs : List Char) : Option (Nat × Nat × Nat × List Char) := do
  let (y, cs) ← parseYear cs
  let cs ← expectChar '-' cs
  let (m, cs) ← parseMonth cs
  let cs ← expectChar '-' cs
  let (d, cs) ← parseDay cs
  pure (y, m, d, cs)

/-- The `%H:%M:%S` time part. -/
def parseTimePart (cs : List Char) : Option (Nat × Nat × Nat × List Char) := do
  let (h, cs) ← parseHour cs
  let cs ← expectChar ':' cs
  let (mi, cs) ← parseMinSec cs
  let cs ← expectChar ':' cs
  let (s, cs) ← parseMinSec cs
  pure (h, mi, s, cs)

/-- `strptime` against a date, a separator (the literal `T` matched
case-insensitively, or the format's whitespace matched as `\s+`) and a
time; the whole string must match. -/
def strptimeDateTime (sep : List Char → Option (List Char)) (ts : String) :
    Option DateTime := do
  let (y, m, d, cs) ← parseDatePart ts.toList
  let cs ← sep cs
  let (hh, mi, ss, cs) ← parseTimePart cs
  if cs = [] then mkDateTime? y m d hh mi ss else none

/-- `strptime` against `%Y-%m-%d` (missing time fields default to zero). -/
def strptimeDate (ts : String) : Option DateTime := do
  let (y, m, d, cs) ← parseDatePart ts.toList
  if cs = [] then mkDateTime? y m d 0 0 0 else none

/-- `parse_timestamp`: try the three formats in order; on total failure raise
`ValueError` carrying the original string. -/
def parse_timestamp (ts : String) : Except PyError DateTime :=
  match strptimeDateTime (expectCharCI 'T') ts with
  | some dt => .ok dt
  | none =>
    match strptimeDateTime parseSpaces ts with
    | some dt => .ok dt
    | none =>
      match strptimeDate ts with
      | some dt => .ok dt
      | none => .error (.valueError (("Cannot parse timestamp: ") ++ ts))

/-- Days in year `y` strictly before month `m` (1-based). -/
def daysBeforeMonth (y m : Nat) : Nat :=
  (List.range (m - 1)).foldl (fun acc i => acc + daysInMonth y (i + 1)) 0

/-- Proleptic Gregorian ordinal of a date, as in Python's `date.toordinal`
(day 1 is 0001-01-01). -/
def toOrdinal (y m d : Nat) : Nat :=
  365 * (y - 1) + (y - 1) / 4 - (y - 1) / 100 + (y - 1) / 400 +
    daysBeforeMonth y m + d

/-- Total seconds of a datetime measured from the proleptic epoch; `datetime`
comparison and subtraction (`total_seconds`) factor through this encoding. -/
def toSeconds (dt : DateTime) : Nat :=
  86400 * toOrdinal dt.year dt.month dt.day +
    3600 * dt.hour + 60 * dt.minute + dt.second

/-! ### Data model -/

/-- One marketing touchpoint record. -/
structure Touchpoint where
  channel : String
  timestamp : String
deriving DecidableEq, Repr, Inhabited

/-- One journey record; `revenue = none` models an absent `revenue` field. -/
structure Journey where
  converted : Bool
  revenue : Option ℚ
  touchpoints : List Touchpoint
deriving DecidableEq, Repr, Inhabited

/-- `safe_divide`: division that returns `0` when the denominator is zero. -/
def safe_divide {α : Type} [Div α] [Zero α] [DecidableEq α] (n d : α) : α :=
  if d = 0 then 0 else n / d

/-! ### The credit ledger (a Python dict) -/

/-- A Python dict from channel to credit: an association list in insertion
order with unique keys (uniqueness holds by construction; lookup reads the
first match and update rewrites the first match). -/
abbrev Ledger (α : Type) := List (String × α)

/-- `credits.get(ch, 0.0)`. -/
def dget {α : Type} [Zero α] : Ledger α → String → α
  | [], _ => 0
  | p :: rest, ch => if p.1 = ch then p.2 else dget rest ch

/-- `credits[ch] = v`: replace the first entry with key `ch`, or append. -/
def dset {α : Type} : Ledger α → String → α → Ledger α
  | [], ch, v => [(ch, v)]
  | p :: rest, ch, v =>
    if p.1 = ch then (ch, v) :: rest else p :: dset rest ch v

/-- `credits[ch] = credits.get(ch, 0.0) + v`. -/
def dadd {α : Type} [Zero α] [Add α] (credits : Ledger α) (ch : String)
    (v : α) : Ledger α :=
  dset credits ch (dget credits ch + v)

/-- A loop `for (ch, v) in pairs: credits[ch] = credits.get(ch, 0.0) + v`. -/
def addCredits {α : Type} [Zero α] [Add α] (credits : Ledger α)
    (pairs : List (String × α)) : Ledger α :=
  pairs.foldl (fun l p => dadd l p.1 p.2) credits

/-- The key set of the ledger, in insertion order. -/
def keys {α : Type} (credits : Ledger α) : List String :=
  credits.map Prod.fst

/-- The sum of all credit values in the ledger. -/
def valsum {α : Type} [AddCommMonoid α] (credits : Ledger α) : α :=
  (credits.map Prod.snd).sum

/-- Equality of two ledgers as dicts: the same key set and the same credit
per channel (Python `==` on dicts ignores insertion order). -/
def dictEq {α : Type} [Zero α] (l l' : Ledger α) : Prop :=
  (∀ ch, ch ∈ keys l ↔ ch ∈ keys l') ∧ ∀ ch, dget l ch = dget l' ch

/-! ### Sorting touchpoints by parsed timestamp

`sorted(touchpoints, key=lambda t: parse_timestamp(t["timestamp"]))`:
CPython first evaluates the key for every element in list order (so the
first unparseable timestamp aborts the whole call), then stable-sorts by
the keys.  `datetime` comparison factors through `toSeconds`. -/

/-- Comparison used for sorting decorated touchpoints. -/
def keyLE (a b : Nat × Touchpoint) : Bool :=
  decide (a.1 ≤ b.1)

/-- The decorate–sort–undecorate embedding of `sorted(..., key=parse)`. -/
def sortTouchpoints (tps : List Touchpoint) :
    Except PyError (List Touchpoint) := do
  let keyed ← tps.mapM (fun tp =>
    (parse_timestamp tp.timestamp).map (fun dt => (toSeconds dt, tp)))
  pure ((keyed.mergeSort keyLE).map Prod.snd)

/-! ### The five attribution models -/

/-- Loop body of `first_touch_attribution` for one journey. -/
def first_touch_step (credits : Ledger ℚ) (journey : Journey) :
    Except PyError (Ledger ℚ) :=
  if !journey.converted then .ok credits
  else if journey.touchpoints.isEmpty then .ok credits
  else do
    let sorted_tp ← sortTouchpoints journey.touchpoints
    let channel := (sorted_tp.headD default).channel
    let revenue := journey.revenue.getD 1
    pure (dadd credits channel revenue)

/-- `first_touch_attribution`: 100% credit to the first touchpoint. -/
def first_touch_attribution (journeys : List Journey) :
    Except PyError (Ledger ℚ) :=
  journeys.foldlM first_touch_step []

/-- Loop body of `last_touch_attribution` for one journey. -/
def last_touch_step (credits : Ledger ℚ) (journey : Journey) :
    Except PyError (Ledger ℚ) :=
  if !journey.converted then .ok credits
  else if journey.touchpoints.isEmpty then .ok credits
  else do
    let sorted_tp ← sortTouchpoints journey.touchpoints
    let channel := (sorted_tp.getLastD default).channel
    let revenue := journey.revenue.getD 1
    pure (dadd credits channel revenue)

/-- `last_touch_attribution`: 100% credit to the last touchpoint. -/
def last_touch_attribution (journeys : List Journey) :
    Except PyError (Ledger ℚ) :=
  journeys.foldlM last_touch_step []

/-- Loop body of `linear_attribution` for one journey; note the source never
parses timestamps here (no sorting is needed for an equal split). -/
def linear_step (credits : Ledger ℚ) (journey : Journey) : Ledger ℚ :=
  if !journey.converted then credits
  else if journey.touchpoints.isEmpty then credits
  else
    let revenue := journey.revenue.getD 1
    let share := safe_divide revenue (journey.touchpoints.length : ℚ)
    addCredits credits (journey.touchpoints.map (fun tp => (tp.channel, share)))

/-- `linear_attribution`: equal credit across all touchpoints.  It is a
total function: no code path of the source can raise. -/
def linear_attribution (journeys : List Journey) : Ledger ℚ :=
  journeys.foldl linear_step []

/-- Loop body of `position_based_attribution` for one journey. -/
def position_based_step (credits : Ledger ℚ) (journey : Journey) :
    Except PyError (Ledger ℚ) :=
  if !journey.converted then .ok credits
  else if journey.touchpoints.isEmpty then .ok credits
  else do
    let revenue := journey.revenue.getD 1
    let sorted_tp ← sortTouchpoints journey.touchpoints
    if sorted_tp.length = 1 then
      pure (dadd credits (sorted_tp.headD default).channel revenue)
    else if sorted_tp.length = 2 then
      let first_channel := (sorted_tp.headD default).channel
      let last_channel := (sorted_tp.getLastD default).channel
      pure (dadd (dadd credits first_channel (revenue * (0.5 : ℚ)))
        last_channel (revenue * (0.5 : ℚ)))
    else
      let first_channel := (sorted_tp.headD default).channel
      let last_channel := (sorted_tp.getLastD default).channel
      let credits1 := dadd credits first_channel (revenue * (0.4 : ℚ))
      let credits2 := dadd credits1 last_channel (revenue * (0.4 : ℚ))
      let middle_count := sorted_tp.length - 2
      let middle_share :=
        safe_divide (revenue * (0.2 : ℚ)) (middle_count : ℚ)
      pure (addCredits credits2
        ((sorted_tp.drop 1).dropLast.map (fun tp => (tp.channel, middle_share))))

/-- `position_based_attribution`: 40% first, 40% last, 20% split among the
middle touchpoints. -/
def position_based_attribution (journeys : List Journey) :
    Except PyError (Ledger ℚ) :=
  journeys.foldlM position_based_step []

/-- The decayed weight of one touchpoint given the decay rate and the
number of days between it and the conversion anchor. -/
noncomputable def decayWeight (decay_rate : ℝ) (days_before : ℝ) : ℝ :=
  Real.exp (-decay_rate * days_before)

/-- Loop body of `time_decay_attribution` for one journey (the decay rate is
computed once, before the loop). -/
noncomputable def time_decay_step (decay_rate : ℝ) (credits : Ledger ℝ)
    (journey : Journey) : Except PyError (Ledger ℝ) :=
  if !journey.converted then .ok credits
  else if journey.touchpoints.isEmpty then .ok credits
  else do
    let revenue : ℝ := (journey.revenue.getD 1 : ℚ)
    let sorted_tp ← sortTouchpoints journey.touchpoints
    let conversion_time ←
      parse_timestamp (sorted_tp.getLastD default).timestamp
    let weights ← sorted_tp.mapM (fun tp =>
      (parse_timestamp tp.timestamp).map (fun dt =>
        decayWeight decay_rate
          (((toSeconds conversion_time : ℝ) - (toSeconds dt : ℝ)) / 86400)))
    let total_weight := weights.sum
    if total_weight = 0 then .ok credits
    else
      pure (addCredits credits ((sorted_tp.zip weights).map (fun p =>
        (p.1.channel, safe_divide p.2 total_weight * revenue))))

/-- `time_decay_attribution`: exponential decay favouring recent
touchpoints.  `math.log(2) / half_life_days` is an unguarded Python float
division: it raises `ZeroDivisionError` when the half-life is zero. -/
noncomputable def time_decay_attribution (journeys : List Journey)
    (half_life_days : ℚ) : Except PyError (Ledger ℝ) :=
  if half_life_days = 0 then .error .zeroDivisionError
  else
    journeys.foldlM
      (time_decay_step (Real.log 2 / (half_life_days : ℝ))) []

/-! ### Dispatch and summary -/

/-- The five supported model identifiers, in source order. -/
def MODELS : List String :=
  ["first-touch", "last-touch", "linear", "time-decay", "position-based"]

/-- View of an exact-rational ledger as a real-valued one (the dispatcher
returns every model's ledger at a single type). -/
noncomputable def toRealLedger (credits : Ledger ℚ) : Ledger ℝ :=
  credits.map (fun p => (p.1, (p.2 : ℝ)))

/-- `run_model`: dispatch on the model name; unknown names raise
`ValueError` naming the offending identifier and the supported set. -/
noncomputable def run_model (model_name : String) (journeys : List Journey)
    (half_life : ℚ) : Except PyError (Ledger ℝ) :=
  if model_name = ("first-touch") then
    (first_touch_attribution journeys).map toRealLedger
  else if model_name = ("last-touch") then
    (last_touch_attribution journeys).map toRealLedger
  else if model_name = ("linear") then
    .ok (toRealLedger (linear_attribution journeys))
  else if model_name = ("time-decay") then
    time_decay_attribution journeys half_life
  else if model_name = ("position-based") then
    (position_based_attribution journeys).map toRealLedger
  else
    .error (.valueError ((("Unknown model: ") ++ model_name ++
      (". Choose from: ") ++ (", ").intercalate MODELS)))

/-- Round-half-even to an integer, as Python's `round` on exact values. -/
def roundHalfEven (q : ℚ) : ℤ :=
  if q - ⌊q⌋ < 1 / 2 then ⌊q⌋
  else if 1 / 2 < q - ⌊q⌋ then ⌊q⌋ + 1
  else if ⌊q⌋ % 2 = 0 then ⌊q⌋ else ⌊q⌋ + 1

/-- `round(x, 2)` on exact values (float-representation effects are outside
the model; no claim depends on the rounded digits). -/
def round2 (x : ℚ) : ℚ :=
  (roundHalfEven (x * 100) : ℚ) / 100

/-- The record `compute_summary` returns. -/
structure Summary where
  total_journeys : Nat
  converted_journeys : Nat
  conversion_rate : ℚ
  total_revenue : ℚ
  channels_observed : List String
deriving DecidableEq, Repr

/-- String order used by `sorted` over the channel set. -/
def strLE (a b : String) : Bool :=
  decide (a ≤ b)

/-- `compute_summary`: dataset statistics independent of any model.  Note the
source sums `j.get("revenue", 0.0)` here — the absent-revenue default is
`0.0`, unlike the `1.0` used by every attribution model. -/
def compute_summary (journeys : List Journey) : Summary :=
  let total_journeys := journeys.length
  let converted := (journeys.filter (fun j => j.converted)).length
  let total_revenue :=
    ((journeys.filter (fun j => j.converted)).map
      (fun j => j.revenue.getD 0)).sum
  let all_channels :=
    (journeys.flatMap (fun j => j.touchpoints.map (fun tp => tp.channel))).dedup
  { total_journeys := total_journeys
    converted_journeys := converted
    conversion_rate :=
      round2 (safe_divide (converted : ℚ) (total_journeys : ℚ) * 100)
    total_revenue := round2 total_revenue
    channels_observed := all_channels.mergeSort strLE }

/-! ### Pure characterizations

Each model's monadic journey step, on a journey whose timestamps all parse
(or which is skipped before parsing), acts as `addCredits` with a pure
per-journey contribution list.  All algebraic claims are proved through
these characterizations. -/

/-- A timestamp string parses under `parse_timestamp`. -/
def parsesB (ts : String) : Bool :=
  (parse_timestamp ts).toOption.isSome

/-- The parsed datetime of a timestamp (junk value when unparseable). -/
def pdt (ts : String) : DateTime :=
  ((parse_timestamp ts).toOption).getD default

/-- The sort key of a touchpoint: total seconds of its parsed timestamp. -/
def sortKey (tp : Touchpoint) : Nat :=
  toSeconds (pdt tp.timestamp)

/-- Pure view of `sortTouchpoints` (identical decorate–sort–undecorate,
with the parse failures already known absent). -/
def sortTouchpointsPure (tps : List Touchpoint) : List Touchpoint :=
  ((tps.map (fun tp => (sortKey tp, tp))).mergeSort keyLE).map Prod.snd

/-- The journey is converted and has at least one touchpoint. -/
def eligible (j : Journey) : Bool :=
  j.converted && !j.touchpoints.isEmpty

/-- Every touchpoint timestamp of the journey parses. -/
def journeyParses (j : Journey) : Bool :=
  j.touchpoints.all (fun tp => parsesB tp.timestamp)

/-- The journey is either skipped before parsing or fully parseable. -/
def okJourney (j : Journey) : Bool :=
  !eligible j || journeyParses j

/-- Every touchpoint timestamp of every journey parses. -/
def allParses (js : List Journey) : Bool :=
  js.all journeyParses

/-- Per-journey contribution of `first_touch_attribution`. -/
def firstContrib (j : Journey) : List (String × ℚ) :=
  if eligible j then
    [(((sortTouchpointsPure j.touchpoints).headD default).channel,
      j.revenue.getD 1)]
  else []

/-- Per-journey contribution of `last_touch_attribution`. -/
def lastContrib (j : Journey) : List (String × ℚ) :=
  if eligible j then
    [(((sortTouchpointsPure j.touchpoints).getLastD default).channel,
      j.revenue.getD 1)]
  else []

/-- Per-journey contribution of `linear_attribution`. -/
def linearContrib (j : Journey) : List (String × ℚ) :=
  if eligible j then
    j.touchpoints.map (fun tp =>
      (tp.channel,
        safe_divide (j.revenue.getD 1) (j.touchpoints.length : ℚ)))
  else []

/-- Per-journey contribution of `position_based_attribution`. -/
def posContrib (j : Journey) : List (String × ℚ) :=
  if eligible j then
    if (sortTouchpointsPure j.touchpoints).length = 1 then
      [(((sortTouchpointsPure j.touchpoints).headD default).channel,
        j.revenue.getD 1)]
    else if (sortTouchpointsPure j.touchpoints).length = 2 then
      [(((sortTouchpointsPure j.touchpoints).headD default).channel,
          j.revenue.getD 1 * (0.5 : ℚ)),
        (((sortTouchpointsPure j.touchpoints).getLastD default).channel,
          j.revenue.getD 1 * (0.5 : ℚ))]
    else
      (((sortTouchpointsPure j.touchpoints).headD default).channel,
          j.revenue.getD 1 * (0.4 : ℚ)) ::
        (((sortTouchpointsPure j.touchpoints).getLastD default).channel,
            j.revenue.getD 1 * (0.4 : ℚ)) ::
          ((sortTouchpointsPure j.touchpoints).drop 1).dropLast.map (fun tp =>
            (tp.channel,
              safe_divide (j.revenue.getD 1 * (0.2 : ℚ))
                (((sortTouchpointsPure j.touchpoints).length - 2 : Nat) : ℚ)))
  else []

/-- Decay weights of a journey's sorted touchpoints, anchored at the last
(sorted) touchpoint. -/
noncomputable def tdWeights (decay_rate : ℝ) (tps : List Touchpoint) :
    List ℝ :=
  (sortTouchpointsPure tps).map (fun tp =>
    decayWeight decay_rate
      (((sortKey ((sortTouchpointsPure tps).getLastD default) : ℝ) -
        (sortKey tp : ℝ)) / 86400))

/-- Per-journey contribution of `time_decay_attribution`. -/
noncomputable def tdContrib (decay_rate : ℝ) (j : Journey) :
    List (String × ℝ) :=
  if eligible j then
    if (tdWeights decay_rate j.touchpoints).sum = 0 then []
    else
      ((sortTouchpointsPure j.touchpoints).zip
          (tdWeights decay_rate j.touchpoints)).map (fun p =>
        (p.1.channel,
          safe_divide p.2 (tdWeights decay_rate j.touchpoints).sum *
            ((j.revenue.getD 1 : ℚ) : ℝ)))
  else []

/-- Pure accumulation of per-journey contributions into a fresh ledger. -/
def processPure {α : Type} [Zero α] [Add α]
    (contrib : Journey → List (String × α)) (journeys : List Journey) :
    Ledger α :=
  journeys.foldl (fun credits j => addCredits credits (contrib j)) []

/-! ### Auxiliary definitions for the statements and witnesses -/

/-- The maximal parsed-timestamp key among a journey's touchpoints (the
"conversion time" the spec describes). -/
def latestKey (tps : List Touchpoint) : Nat :=
  (tps.map sortKey).foldl max 0

/-- Modelled from the spec: `weight_i = exp(−λ · days_before_i)` with
`λ = ln(2)/half_life` and `days_before_i` measured from the maximal parsed
timestamp among the journey's touchpoints (the "conversion time"). -/
noncomputable def specDecayWeight (half_life : ℚ) (tps : List Touchpoint)
    (tp : Touchpoint) : ℝ :=
  Real.exp (-(Real.log 2 / (half_life : ℝ)) *
    (((latestKey tps : ℝ) - (sortKey tp : ℝ)) / 86400))

/-- Modelled from the spec: `share_i = weight_i / Σ weight_j`. -/
noncomputable def specDecayShare (half_life : ℚ) (tps : List Touchpoint)
    (tp : Touchpoint) : ℝ :=
  specDecayWeight half_life tps tp /
    (tps.map (specDecayWeight half_life tps)).sum

/-- Results agree as Python values: equal dicts on success, the very same
exception on failure. -/
def exceptEquiv {α : Type} [Zero α] :
    Except PyError (Ledger α) → Except PyError (Ledger α) → Prop
  | .ok l, .ok l' => dictEq l l'
  | .error e, .error e' => e = e'
  | _, _ => False

/-- A converted single-touchpoint journey used to witness C1. -/
def journeyW1 : Journey :=
  ⟨true, some 10, [⟨("email"), ("2024-01-01")⟩]⟩

/-- A converted two-touchpoint journey used to witness C2. -/
def journeyW2 : Journey :=
  ⟨true, some 10,
    [⟨("ads"), ("2024-01-03")⟩, ⟨("email"), ("2024-01-01")⟩]⟩

/-- A converted three-touchpoint journey used to witness C3. -/
def journeyW3 : Journey :=
  ⟨true, some 10,
    [⟨("ads"), ("2024-01-03")⟩, ⟨("email"), ("2024-01-01")⟩,
      ⟨("social"), ("2024-01-02")⟩]⟩

/-- A parseable journey used to witness C5. -/
def journeyW5 : Journey :=
  ⟨true, some 10, [⟨("email"), ("2024-01-01")⟩]⟩

/-- Two parseable journeys used to witness C7. -/
def journeyW7a : Journey :=
  ⟨true, some 10, [⟨("email"), ("2024-01-01")⟩]⟩

/-- Second journey for the C7 witness. -/
def journeyW7b : Journey :=
  ⟨true, some 3, [⟨("ads"), ("2024-01-02")⟩]⟩

/-- An unconverted journey with one touchpoint, witnessing C8. -/
def journeyW8 : Journey :=
  ⟨false, none, [⟨("social"), ("2024-01-01")⟩]⟩

/-- A journey with positive revenue used to witness C9. -/
def journeyW9 : Journey :=
  ⟨true, some 10,
    [⟨("email"), ("2024-01-01")⟩, ⟨("ads"), ("2024-01-05")⟩]⟩

/-- A journey used to witness C10. -/
def journeyW10 : Journey :=
  ⟨true, some 10, [⟨("email"), ("2024-01-01")⟩]⟩

/-! ### Ledger algebra -/

theorem addCredits_nil {α : Type} [Zero α] [Add α] (l : Ledger α) :
    addCredits l [] = l := rfl

theorem addCredits_cons {α : Type} [Zero α] [Add α] (l : Ledger α)
    (p : String × α) (ps : List (String × α)) :
    addCredits l (p :: ps) = addCredits (dadd l p.1 p.2) ps := rfl

theorem dget_dset {α : Type} [Zero α] (l : Ledger α) (ch ch' : String)
    (v : α) :
    dget (dset l ch v) ch' = if ch = ch' then v else dget l ch' := by
  induction l with
  | nil => simp [dset, dget]
  | cons p rest ih =>
    by_cases hp : p.1 = ch
    · have h1 : dset (p :: rest) ch v = (ch, v) :: rest := by
        simp [dset, hp]
      rw [h1]
      by_cases hc : ch = ch'
      · simp [dget, hc]
      · have hpc : ¬ p.1 = ch' := by rw [hp]; exact hc
        simp [dget, hc, hpc]
    · have h1 : dset (p :: rest) ch v = p :: dset rest ch v := by
        simp [dset, hp]
      rw [h1]
      by_cases hpc : p.1 = ch'
      · have hcc : ¬ ch = ch' := fun h => hp (by rw [h, hpc])
        simp [dget, hpc, hcc]
      · simp [dget, hpc, ih]

theorem dget_dadd {α : Type} [AddCommMonoid α] (l : Ledger α)
    (ch ch' : String) (v : α) :
    dget (dadd l ch v) ch' = dget l ch' + if ch = ch' then v else 0 := by
  unfold dadd
  rw [dget_dset]
  by_cases hc : ch = ch' <;> simp [hc]

theorem valsum_dadd {α : Type} [AddCommMonoid α] (l : Ledger α)
    (ch : String) (v : α) :
    valsum (dadd l ch v) = valsum l + v := by
  induction l with
  | nil => simp [dadd, dget, dset, valsum]
  | cons p rest ih =>
    by_cases hp : p.1 = ch
    · have h1 : dadd (p :: rest) ch v = (ch, p.2 + v) :: rest := by
        simp [dadd, dget, dset, hp]
      rw [h1]
      simp only [valsum, List.map_cons, List.sum_cons]
      abel
    · have h1 : dadd (p :: rest) ch v = p :: dadd rest ch v := by
        simp [dadd, dget, dset, hp]
      rw [h1]
      simp only [valsum, List.map_cons, List.sum_cons] at ih ⊢
      rw [ih]
      abel

theorem mem_keys_dadd {α : Type} [AddCommMonoid α] (l : Ledger α)
    (ch ch' : String) (v : α) :
    ch' ∈ keys (dadd l ch v) ↔ ch' ∈ keys l ∨ ch' = ch := by
  induction l with
  | nil => simp [dadd, dget, dset, keys]
  | cons p rest ih =>
    by_cases hp : p.1 = ch
    · have h1 : dadd (p :: rest) ch v = (ch, p.2 + v) :: rest := by
        simp [dadd, dget, dset, hp]
      rw [h1]
      simp only [keys, List.map_cons, List.mem_cons, hp]
      tauto
    · have h1 : dadd (p :: rest) ch v = p :: dadd rest ch v := by
        simp [dadd, dget, dset, hp]
      rw [h1]
      simp only [keys, List.map_cons, List.mem_cons] at ih ⊢
      rw [ih]
      tauto

theorem dget_addCredits {α : Type} [AddCommMonoid α] (ps : List (String × α))
    (l : Ledger α) (ch : String) :
    dget (addCredits l ps) ch =
      dget l ch + (ps.map (fun p => if p.1 = ch then p.2 else 0)).sum := by
  induction ps generalizing l with
  | nil => simp [addCredits_nil]
  | cons p rest ih =>
    rw [addCredits_cons, ih, dget_dadd]
    simp only [List.map_cons, List.sum_cons]
    rw [add_assoc]

theorem valsum_addCredits {α : Type} [AddCommMonoid α]
    (ps : List (String × α)) (l : Ledger α) :
    valsum (addCredits l ps) = valsum l + (ps.map Prod.snd).sum := by
  induction ps generalizing l with
  | nil => simp [addCredits_nil]
  | cons p rest ih =>
    rw [addCredits_cons, ih, valsum_dadd]
    simp only [List.map_cons, List.sum_cons]
    rw [add_assoc]

theorem mem_keys_addCredits {α : Type} [AddCommMonoid α]
    (ps : List (String × α)) (l : Ledger α) (ch : String) :
    ch ∈ keys (addCredits l ps) ↔ ch ∈ keys l ∨ ch ∈ ps.map Prod.fst := by
  induction ps generalizing l with
  | nil => simp [addCredits_nil]
  | cons p rest ih =>
    rw [addCredits_cons, ih, mem_keys_dadd]
    simp only [List.map_cons, List.mem_cons]
    tauto

theorem dget_nonneg {α : Type} [AddCommMonoid α] [PartialOrder α]
    (l : Ledger α) (h : ∀ p ∈ l, 0 ≤ p.2) (ch : String) : 0 ≤ dget l ch := by
  induction l with
  | nil => simp [dget]
  | cons p rest ih =>
    by_cases hp : p.1 = ch
    · simpa [dget, hp] using h p (by simp)
    · simp only [dget, hp, if_neg hp]
      exact ih (fun q hq => h q (by simp [hq]))

theorem nonneg_dadd {α : Type} [AddCommMonoid α] [PartialOrder α]
    [CovariantClass α α (· + ·) (· ≤ ·)]
    (l : Ledger α) (ch : String) (v : α) (hl : ∀ p ∈ l, 0 ≤ p.2)
    (hv : 0 ≤ v) : ∀ p ∈ dadd l ch v, 0 ≤ p.2 := by
  have hval : 0 ≤ dget l ch + v :=
    le_add_of_le_of_nonneg (dget_nonneg l hl ch) hv
  unfold dadd
  revert hval
  generalize dget l ch + v = w
  intro hw
  induction l with
  | nil =>
    intro p hp
    simp only [dset, List.mem_singleton] at hp
    simpa [hp]
  | cons q rest ih =>
    intro p hp
    by_cases hq : q.1 = ch
    · simp only [dset, hq, if_pos rfl] at hp
      rcases List.mem_cons.mp hp with h1 | h2
      · simpa [h1]
      · exact hl p (by simp [h2])
    · simp only [dset, hq, if_neg hq] at hp
      rcases List.mem_cons.mp hp with h1 | h2
      · exact hl p (by simp [h1])
      · exact ih (fun r hr => hl r (by simp [hr])) p h2

theorem nonneg_addCredits {α : Type} [AddCommMonoid α] [PartialOrder α]
    [CovariantClass α α (· + ·) (· ≤ ·)]
    (ps : List (String × α)) (l : Ledger α) (hl : ∀ p ∈ l, 0 ≤ p.2)
    (hps : ∀ p ∈ ps, 0 ≤ p.2) : ∀ p ∈ addCredits l ps, 0 ≤ p.2 := by
  induction ps generalizing l with
  | nil =>
    intro p hp
    rw [addCredits_nil] at hp
    exact hl p hp
  | cons p rest ih =>
    rw [addCredits_cons]
    exact ih (dadd l p.1 p.2)
      (nonneg_dadd l p.1 p.2 hl (hps p (by simp)))
      (fun q hq => hps q (by simp [hq]))

/-! ### Parsing and sorting facts -/

theorem parse_ok_of_parsesB {ts : String} (h : parsesB ts = true) :
    parse_timestamp ts = .ok (pdt ts) := by
  unfold parsesB at h
  unfold pdt
  cases hp : parse_timestamp ts with
  | ok dt => simp [hp, Except.toOption]
  | error e => rw [hp] at h; simp [Except.toOption] at h

theorem parse_error_of_not_parsesB {ts : String} (h : parsesB ts = false) :
    parse_timestamp ts =
      .error (.valueError (("Cannot parse timestamp: ") ++ ts)) := by
  unfold parsesB at h
  unfold parse_timestamp at h ⊢
  cases h1 : strptimeDateTime (expectCharCI 'T') ts <;>
    cases h2 : strptimeDateTime parseSpaces ts <;>
      cases h3 : strptimeDate ts <;> simp_all [Except.toOption]

theorem mapM_eq_ok {β γ : Type} (f : β → Except PyError γ) (g : β → γ)
    (l : List β) (h : ∀ x ∈ l, f x = .ok (g x)) :
    l.mapM f = .ok (l.map g) := by
  induction l with
  | nil => rfl
  | cons a rest ih =>
    rw [List.mapM_cons, h a (by simp), ih (fun x hx => h x (by simp [hx]))]
    rfl

theorem mapM_eq_error {β γ : Type} (f : β → Except PyError γ) (l : List β)
    (hex : ∃ x ∈ l, ∀ y, f x ≠ .ok y) :
    ∃ x ∈ l, ∃ e, f x = .error e ∧ l.mapM f = .error e := by
  induction l with
  | nil => simp at hex
  | cons a rest ih =>
    cases hfa : f a with
    | error e =>
      refine ⟨a, by simp, e, hfa, ?_⟩
      rw [List.mapM_cons, hfa]
      rfl
    | ok y =>
      have hrest : ∃ x ∈ rest, ∀ z, f x ≠ .ok z := by
        rcases hex with ⟨x, hxmem, hxbad⟩
        rcases List.mem_cons.mp hxmem with rfl | hr
        · exact absurd hfa (hxbad y)
        · exact ⟨x, hr, hxbad⟩
      rcases ih hrest with ⟨x, hxr, e, hfe, hmapM⟩
      refine ⟨x, by simp [hxr], e, hfe, ?_⟩
      rw [List.mapM_cons, hfa, hmapM]
      rfl

theorem mem_of_mapM_ok {β γ : Type} (f : β → Except PyError γ)
    (l : List β) (ys : List γ) (h : l.mapM f = .ok ys) :
    ∀ y ∈ ys, ∃ x ∈ l, f x = .ok y := by
  induction l generalizing ys with
  | nil =>
    rw [List.mapM_nil] at h
    cases h
    simp
  | cons a rest ih =>
    rw [List.mapM_cons] at h
    cases hfa : f a with
    | error e => rw [hfa] at h; cases h
    | ok z =>
      rw [hfa] at h
      cases hrest : rest.mapM f with
      | error e =>
        rw [hrest] at h
        cases h
      | ok zs =>
        rw [hrest] at h
        have h2 : (Except.ok (z :: zs) : Except PyError (List γ)) =
            Except.ok ys := h
        have h3 : z :: zs = ys := by cases h2; rfl
        subst h3
        intro y hy
        rcases List.mem_cons.mp hy with rfl | hmem
        · exact ⟨a, by simp, hfa⟩
        · rcases ih zs hrest y hmem with ⟨x, hx, hfx⟩
          exact ⟨x, by simp [hx], hfx⟩

theorem sortTouchpoints_eq_pure (tps : List Touchpoint)
    (h : ∀ tp ∈ tps, parsesB tp.timestamp = true) :
    sortTouchpoints tps = .ok (sortTouchpointsPure tps) := by
  unfold sortTouchpoints sortTouchpointsPure
  rw [mapM_eq_ok _ (fun tp => (sortKey tp, tp)) tps ?_]
  · rfl
  · intro tp htp
    rw [parse_ok_of_parsesB (h tp htp)]
    rfl

theorem sortTouchpoints_error_of_bad (tps : List Touchpoint)
    (hex : ∃ tp ∈ tps, parsesB tp.timestamp = false) :
    ∃ tp ∈ tps, parsesB tp.timestamp = false ∧
      sortTouchpoints tps =
        .error (.valueError (("Cannot parse timestamp: ") ++ tp.timestamp)) := by
  have hex' : ∃ tp ∈ tps, ∀ y,
      (parse_timestamp tp.timestamp).map
        (fun dt => (toSeconds dt, tp)) ≠ .ok y := by
    rcases hex with ⟨tp, hmem, hbad⟩
    refine ⟨tp, hmem, ?_⟩
    intro y hy
    rw [parse_error_of_not_parsesB hbad] at hy
    cases hy
  rcases mapM_eq_error _ tps hex' with ⟨x, hmem, e, hfe, hmapM⟩
  have hxbad : parsesB x.timestamp = false := by
    cases hb : parsesB x.timestamp with
    | false => rfl
    | true =>
      rw [parse_ok_of_parsesB hb] at hfe
      cases hfe
  refine ⟨x, hmem, hxbad, ?_⟩
  rw [parse_error_of_not_parsesB hxbad] at hfe
  have he : e = .valueError (("Cannot parse timestamp: ") ++ x.timestamp) := by
    cases hfe
    rfl
  unfold sortTouchpoints
  rw [hmapM, he]
  rfl

theorem sortTouchpoints_ok_parses {tps : List Touchpoint}
    {s : List Touchpoint} (h : sortTouchpoints tps = .ok s) :
    ∀ tp ∈ tps, parsesB tp.timestamp = true := by
  intro tp htp
  cases hb : parsesB tp.timestamp with
  | true => rfl
  | false =>
    rcases sortTouchpoints_error_of_bad tps ⟨tp, htp, hb⟩ with
      ⟨x, _, _, herr⟩
    rw [herr] at h
    cases h

theorem map_snd_decorate (tps : List Touchpoint) :
    List.map Prod.snd (tps.map (fun tp => (sortKey tp, tp))) = tps := by
  induction tps with
  | nil => rfl
  | cons a l ih => rw [List.map_cons, List.map_cons, ih]

theorem sortTouchpointsPure_perm (tps : List Touchpoint) :
    (sortTouchpointsPure tps).Perm tps := by
  unfold sortTouchpointsPure
  have h1 := List.mergeSort_perm
    (tps.map (fun tp => (sortKey tp, tp))) keyLE
  have h2 := h1.map Prod.snd
  rw [map_snd_decorate] at h2
  exact h2

theorem length_sortTouchpointsPure (tps : List Touchpoint) :
    (sortTouchpointsPure tps).length = tps.length :=
  (sortTouchpointsPure_perm tps).length_eq

theorem mem_sortTouchpointsPure {tps : List Touchpoint} {x : Touchpoint} :
    x ∈ sortTouchpointsPure tps ↔ x ∈ tps :=
  (sortTouchpointsPure_perm tps).mem_iff

theorem headD_mem {β : Type} (l : List β) (d : β) (h : l ≠ []) :
    l.headD d ∈ l := by
  cases l with
  | nil => exact absurd rfl h
  | cons a rest => simp [List.headD]

theorem getLastD_mem {β : Type} : ∀ (l : List β) (d : β), l ≠ [] →
    l.getLastD d ∈ l
  | [], _, h => absurd rfl h
  | [a], d, _ => by simp [List.getLastD]
  | a :: b :: rest, d, _ => by
    rw [List.getLastD_cons]
    exact List.mem_cons_of_mem a (getLastD_mem (b :: rest) a (by simp))

/-! ### Step characterizations: each journey step is `addCredits` of the
pure per-journey contribution -/

theorem ok_bind {β γ : Type} (a : β) (f : β → Except PyError γ) :
    (Except.ok a : Except PyError β) >>= f = f a := rfl

theorem okJourney_parses {j : Journey} (h : okJourney j = true)
    (helig : eligible j = true) :
    ∀ tp ∈ j.touchpoints, parsesB tp.timestamp = true := by
  have hpar : journeyParses j = true := by
    unfold okJourney at h
    simpa [helig] using h
  simpa [journeyParses, List.all_eq_true] using hpar

theorem first_touch_step_eq (credits : Ledger ℚ) (j : Journey)
    (h : okJourney j = true) :
    first_touch_step credits j = .ok (addCredits credits (firstContrib j)) := by
  unfold first_touch_step firstContrib
  cases hconv : j.converted with
  | false => simp [hconv, eligible, addCredits_nil]
  | true =>
    cases hemp : j.touchpoints.isEmpty with
    | true => simp [hconv, hemp, eligible, addCredits_nil]
    | false =>
      have helig : eligible j = true := by simp [eligible, hconv, hemp]
      have hall := okJourney_parses h helig
      simp only [hconv, hemp, Bool.not_true, Bool.not_false, if_true,
        if_false, Bool.false_eq_true, helig]
      rw [sortTouchpoints_eq_pure _ hall]
      rfl

theorem last_touch_step_eq (credits : Ledger ℚ) (j : Journey)
    (h : okJourney j = true) :
    last_touch_step credits j = .ok (addCredits credits (lastContrib j)) := by
  unfold last_touch_step lastContrib
  cases hconv : j.converted with
  | false => simp [hconv, eligible, addCredits_nil]
  | true =>
    cases hemp : j.touchpoints.isEmpty with
    | true => simp [hconv, hemp, eligible, addCredits_nil]
    | false =>
      have helig : eligible j = true := by simp [eligible, hconv, hemp]
      have hall := okJourney_parses h helig
      simp only [hconv, hemp, Bool.not_true, Bool.not_false, if_true,
        if_false, Bool.false_eq_true, helig]
      rw [sortTouchpoints_eq_pure _ hall]
      rfl

theorem linear_step_eq (credits : Ledger ℚ) (j : Journey) :
    linear_step credits j = addCredits credits (linearContrib j) := by
  unfold linear_step linearContrib
  cases hconv : j.converted with
  | false => simp [hconv, eligible, addCredits_nil]
  | true =>
    cases hemp : j.touchpoints.isEmpty with
    | true => simp [hconv, hemp, eligible, addCredits_nil]
    | false =>
      have helig : eligible j = true := by simp [eligible, hconv, hemp]
      simp only [hconv, hemp, Bool.not_true, Bool.not_false, if_true,
        if_false, Bool.false_eq_true, helig]

theorem position_based_step_eq (credits : Ledger ℚ) (j : Journey)
    (h : okJourney j = true) :
    position_based_step credits j =
      .ok (addCredits credits (posContrib j)) := by
  unfold position_based_step posContrib
  cases hconv : j.converted with
  | false => simp [hconv, eligible, addCredits_nil]
  | true =>
    cases hemp : j.touchpoints.isEmpty with
    | true => simp [hconv, hemp, eligible, addCredits_nil]
    | false =>
      have helig : eligible j = true := by simp [eligible, hconv, hemp]
      have hall := okJourney_parses h helig
      simp only [hconv, hemp, Bool.not_true, Bool.not_false, if_true,
        if_false, Bool.false_eq_true, helig]
      rw [sortTouchpoints_eq_pure _ hall, ok_bind]
      split_ifs with h1 h2 <;> rfl

theorem time_decay_step_eq (dr : ℝ) (credits : Ledger ℝ) (j : Journey)
    (h : okJourney j = true) :
    time_decay_step dr credits j =
      .ok (addCredits credits (tdContrib dr j)) := by
  unfold time_decay_step tdContrib
  cases hconv : j.converted with
  | false => simp [hconv, eligible, addCredits_nil]
  | true =>
    cases hemp : j.touchpoints.isEmpty with
    | true => simp [hconv, hemp, eligible, addCredits_nil]
    | false =>
      have helig : eligible j = true := by simp [eligible, hconv, hemp]
      have hall := okJourney_parses h helig
      have hne : sortTouchpointsPure j.touchpoints ≠ [] := by
        intro hcon
        have := length_sortTouchpointsPure j.touchpoints
        rw [hcon] at this
        cases htp : j.touchpoints with
        | nil => rw [htp] at hemp; simp [List.isEmpty] at hemp
        | cons a l => rw [htp] at this; simp at this
      have hlastp : parsesB
          ((sortTouchpointsPure j.touchpoints).getLastD default).timestamp
          = true :=
        hall _ (mem_sortTouchpointsPure.mp (getLastD_mem _ _ hne))
      simp only [hconv, hemp, Bool.not_true, Bool.not_false, if_true,
        if_false, Bool.false_eq_true, helig]
      rw [sortTouchpoints_eq_pure _ hall, ok_bind,
        parse_ok_of_parsesB hlastp, ok_bind]
      rw [mapM_eq_ok _
        (fun tp => decayWeight dr
          (((sortKey ((sortTouchpointsPure j.touchpoints).getLastD default)
            : ℝ) - (sortKey tp : ℝ)) / 86400)) _ ?_]
      · rw [ok_bind]
        unfold tdWeights
        split_ifs with hz
        · rfl
        · rfl
      · intro tp htp
        rw [parse_ok_of_parsesB (hall tp (mem_sortTouchpointsPure.mp htp))]
        rfl

/-! ### Fold-level characterizations -/

theorem error_bind {β γ : Type} (e : PyError) (f : β → Except PyError γ) :
    (Except.error e : Except PyError β) >>= f = .error e := rfl

theorem foldlM_eq_processPure {α : Type} [Zero α] [Add α]
    (step : Ledger α → Journey → Except PyError (Ledger α))
    (contrib : Journey → List (String × α)) (js : List Journey)
    (h : ∀ j ∈ js, ∀ credits,
      step credits j = .ok (addCredits credits (contrib j))) :
    ∀ init, js.foldlM step init =
      .ok (js.foldl (fun c j => addCredits c (contrib j)) init) := by
  induction js with
  | nil => intro init; rfl
  | cons j rest ih =>
    intro init
    rw [List.foldlM_cons, h j (by simp) init, ok_bind, List.foldl_cons]
    exact ih (fun x hx => h x (by simp [hx])) _

theorem first_touch_eq_pure (js : List Journey)
    (h : ∀ j ∈ js, okJourney j = true) :
    first_touch_attribution js = .ok (processPure firstContrib js) :=
  foldlM_eq_processPure _ _ js
    (fun j hj credits => first_touch_step_eq credits j (h j hj)) []

theorem last_touch_eq_pure (js : List Journey)
    (h : ∀ j ∈ js, okJourney j = true) :
    last_touch_attribution js = .ok (processPure lastContrib js) :=
  foldlM_eq_processPure _ _ js
    (fun j hj credits => last_touch_step_eq credits j (h j hj)) []

theorem position_based_eq_pure (js : List Journey)
    (h : ∀ j ∈ js, okJourney j = true) :
    position_based_attribution js = .ok (processPure posContrib js) :=
  foldlM_eq_processPure _ _ js
    (fun j hj credits => position_based_step_eq credits j (h j hj)) []

theorem time_decay_eq_pure (js : List Journey) (hl : ℚ) (hz : hl ≠ 0)
    (h : ∀ j ∈ js, okJourney j = true) :
    time_decay_attribution js hl =
      .ok (processPure (tdContrib (Real.log 2 / (hl : ℝ))) js) := by
  unfold time_decay_attribution
  rw [if_neg hz]
  exact foldlM_eq_processPure _ _ js
    (fun j hj credits => time_decay_step_eq _ credits j (h j hj)) []

theorem linear_foldl_aux (js : List Journey) : ∀ init : Ledger ℚ,
    js.foldl linear_step init =
      js.foldl (fun c x => addCredits c (linearContrib x)) init := by
  induction js with
  | nil => intro init; rfl
  | cons y ys ihy =>
    intro init
    rw [List.foldl_cons, List.foldl_cons, linear_step_eq]
    exact ihy _

theorem linear_eq_pure (js : List Journey) :
    linear_attribution js = processPure linearContrib js :=
  linear_foldl_aux js []

/-! ### `processPure` algebra -/

theorem dget_processPure {α : Type} [AddCommMonoid α]
    (contrib : Journey → List (String × α)) (js : List Journey)
    (ch : String) :
    dget (processPure contrib js) ch =
      (js.map (fun j =>
        ((contrib j).map (fun p => if p.1 = ch then p.2 else 0)).sum)).sum := by
  have haux : ∀ init : Ledger α,
      dget (js.foldl (fun c j => addCredits c (contrib j)) init) ch =
        dget init ch +
          (js.map (fun j =>
            ((contrib j).map
              (fun p => if p.1 = ch then p.2 else 0)).sum)).sum := by
    induction js with
    | nil => intro init; simp
    | cons j rest ih =>
      intro init
      rw [List.foldl_cons, ih, dget_addCredits, List.map_cons,
        List.sum_cons, add_assoc]
  have h0 := haux []
  simpa [dget] using h0

theorem valsum_processPure {α : Type} [AddCommMonoid α]
    (contrib : Journey → List (String × α)) (js : List Journey) :
    valsum (processPure contrib js) =
      (js.map (fun j => ((contrib j).map Prod.snd).sum)).sum := by
  have haux : ∀ init : Ledger α,
      valsum (js.foldl (fun c j => addCredits c (contrib j)) init) =
        valsum init +
          (js.map (fun j => ((contrib j).map Prod.snd).sum)).sum := by
    induction js with
    | nil => intro init; simp
    | cons j rest ih =>
      intro init
      rw [List.foldl_cons, ih, valsum_addCredits, List.map_cons,
        List.sum_cons, add_assoc]
  have h0 := haux []
  simpa [valsum] using h0

theorem mem_keys_processPure {α : Type} [AddCommMonoid α]
    (contrib : Journey → List (String × α)) (js : List Journey)
    (ch : String) :
    ch ∈ keys (processPure contrib js) ↔
      ∃ j ∈ js, ch ∈ (contrib j).map Prod.fst := by
  have haux : ∀ init : Ledger α,
      (ch ∈ keys (js.foldl (fun c j => addCredits c (contrib j)) init) ↔
        ch ∈ keys init ∨ ∃ j ∈ js, ch ∈ (contrib j).map Prod.fst) := by
    induction js with
    | nil => intro init; simp
    | cons j rest ih =>
      intro init
      rw [List.foldl_cons, ih, mem_keys_addCredits]
      simp only [List.mem_cons]
      constructor
      · rintro ((h1 | h2) | ⟨x, hx, hc⟩)
        · exact Or.inl h1
        · exact Or.inr ⟨j, Or.inl rfl, h2⟩
        · exact Or.inr ⟨x, Or.inr hx, hc⟩
      · rintro (h1 | ⟨x, rfl | hx, hc⟩)
        · exact Or.inl (Or.inl h1)
        · exact Or.inl (Or.inr hc)
        · exact Or.inr ⟨x, hx, hc⟩
  have h0 := haux []
  simpa [keys] using h0

theorem nonneg_processPure {α : Type} [AddCommMonoid α] [PartialOrder α]
    [CovariantClass α α (· + ·) (· ≤ ·)]
    (contrib : Journey → List (String × α)) (js : List Journey)
    (h : ∀ j ∈ js, ∀ p ∈ contrib j, 0 ≤ p.2) :
    ∀ p ∈ processPure contrib js, 0 ≤ p.2 := by
  have haux : ∀ init : Ledger α, (∀ p ∈ init, 0 ≤ p.2) →
      ∀ p ∈ js.foldl (fun c j => addCredits c (contrib j)) init, 0 ≤ p.2 := by
    induction js with
    | nil => intro init hinit; simpa using hinit
    | cons j rest ih =>
      intro init hinit
      rw [List.foldl_cons]
      exact ih (fun x hx => h x (by simp [hx]))
        (addCredits init (contrib j))
        (nonneg_addCredits _ _ hinit (h j (by simp)))
  exact haux [] (by simp)

theorem processPure_perm {α : Type} [AddCommMonoid α]
    (contrib : Journey → List (String × α)) {js js' : List Journey}
    (h : js.Perm js') :
    dictEq (processPure contrib js) (processPure contrib js') := by
  constructor
  · intro ch
    rw [mem_keys_processPure, mem_keys_processPure]
    constructor
    · rintro ⟨j, hj, hc⟩
      exact ⟨j, h.mem_iff.mp hj, hc⟩
    · rintro ⟨j, hj, hc⟩
      exact ⟨j, h.mem_iff.mpr hj, hc⟩
  · intro ch
    rw [dget_processPure, dget_processPure]
    exact List.Perm.sum_eq (h.map _)

/-! ### The real-cast view used by `run_model` -/

theorem toRealLedger_cons (p : String × ℚ) (rest : Ledger ℚ) :
    toRealLedger (p :: rest) = (p.1, (p.2 : ℝ)) :: toRealLedger rest := rfl

theorem dget_toRealLedger (l : Ledger ℚ) (ch : String) :
    dget (toRealLedger l) ch = ((dget l ch : ℚ) : ℝ) := by
  induction l with
  | nil => simp [toRealLedger, dget]
  | cons p rest ih =>
    rw [toRealLedger_cons]
    by_cases hp : p.1 = ch
    · simp [dget, hp]
    · simp only [dget, if_neg hp]
      exact ih

theorem keys_toRealLedger (l : Ledger ℚ) :
    keys (toRealLedger l) = keys l := by
  induction l with
  | nil => rfl
  | cons p rest ih =>
    rw [toRealLedger_cons]
    show p.1 :: keys (toRealLedger rest) = p.1 :: keys rest
    rw [ih]

theorem valsum_toRealLedger (l : Ledger ℚ) :
    valsum (toRealLedger l) = ((valsum l : ℚ) : ℝ) := by
  induction l with
  | nil => simp [toRealLedger, valsum]
  | cons p rest ih =>
    simp only [toRealLedger, valsum, List.map_cons, List.sum_cons,
      List.map_map] at ih ⊢
    rw [ih]
    push_cast
    ring

theorem nonneg_toRealLedger (l : Ledger ℚ) (h : ∀ p ∈ l, 0 ≤ p.2) :
    ∀ p ∈ toRealLedger l, 0 ≤ p.2 := by
  intro p hp
  rcases List.mem_map.mp hp with ⟨q, hq, rfl⟩
  simpa using h q hq

/-! ### Skipped journeys and parse failures -/

theorem eligible_split {j : Journey} (h : eligible j = true) :
    j.converted = true ∧ j.touchpoints.isEmpty = false := by
  unfold eligible at h
  cases hconv : j.converted with
  | false => rw [hconv] at h; simp at h
  | true =>
    cases hemp : j.touchpoints.isEmpty with
    | false => exact ⟨rfl, rfl⟩
    | true => rw [hconv, hemp] at h; simp at h

theorem not_eligible_split {j : Journey} (h : eligible j = false) :
    j.converted = false ∨ j.touchpoints.isEmpty = true := by
  unfold eligible at h
  cases hconv : j.converted with
  | false => exact Or.inl rfl
  | true =>
    rw [hconv] at h
    simp at h
    exact Or.inr (by simp [h])

theorem first_touch_step_skip (credits : Ledger ℚ) (j : Journey)
    (h : eligible j = false) : first_touch_step credits j = .ok credits := by
  unfold first_touch_step
  rcases not_eligible_split h with h1 | h1 <;> simp [h1]

theorem last_touch_step_skip (credits : Ledger ℚ) (j : Journey)
    (h : eligible j = false) : last_touch_step credits j = .ok credits := by
  unfold last_touch_step
  rcases not_eligible_split h with h1 | h1 <;> simp [h1]

theorem linear_step_skip (credits : Ledger ℚ) (j : Journey)
    (h : eligible j = false) : linear_step credits j = credits := by
  unfold linear_step
  rcases not_eligible_split h with h1 | h1 <;> simp [h1]

theorem position_based_step_skip (credits : Ledger ℚ) (j : Journey)
    (h : eligible j = false) : position_based_step credits j = .ok credits := by
  unfold position_based_step
  rcases not_eligible_split h with h1 | h1 <;> simp [h1]

theorem time_decay_step_skip (dr : ℝ) (credits : Ledger ℝ) (j : Journey)
    (h : eligible j = false) : time_decay_step dr credits j = .ok credits := by
  unfold time_decay_step
  rcases not_eligible_split h with h1 | h1 <;> simp [h1]

theorem foldlM_preserve {α : Type}
    (step : Ledger α → Journey → Except PyError (Ledger α))
    (P : Ledger α → Prop) (js : List Journey)
    (hstep : ∀ j ∈ js, ∀ credits l, P credits →
      step credits j = .ok l → P l) :
    ∀ init L, P init → js.foldlM step init = .ok L → P L := by
  induction js with
  | nil =>
    intro init L hP h
    rw [List.foldlM_nil] at h
    cases h
    exact hP
  | cons j rest ih =>
    intro init L hP h
    rw [List.foldlM_cons] at h
    cases hs : step init j with
    | error e => rw [hs, error_bind] at h; cases h
    | ok l =>
      rw [hs, ok_bind] at h
      exact ih (fun x hx => hstep x (by simp [hx])) l L
        (hstep j (by simp) init l hP hs) h

/-! ### `run_model` dispatch -/

theorem run_model_first_touch (js : List Journey) (hl : ℚ) :
    run_model ("first-touch") js hl =
      (first_touch_attribution js).map toRealLedger := by
  unfold run_model
  rw [if_pos rfl]

theorem run_model_last_touch (js : List Journey) (hl : ℚ) :
    run_model ("last-touch") js hl =
      (last_touch_attribution js).map toRealLedger := by
  unfold run_model
  rw [if_neg (by decide), if_pos rfl]

theorem run_model_linear (js : List Journey) (hl : ℚ) :
    run_model ("linear") js hl =
      .ok (toRealLedger (linear_attribution js)) := by
  unfold run_model
  rw [if_neg (by decide), if_neg (by decide), if_pos rfl]

theorem run_model_time_decay (js : List Journey) (hl : ℚ) :
    run_model ("time-decay") js hl = time_decay_attribution js hl := by
  unfold run_model
  rw [if_neg (by decide), if_neg (by decide), if_neg (by decide), if_pos rfl]

theorem run_model_position_based (js : List Journey) (hl : ℚ) :
    run_model ("position-based") js hl =
      (position_based_attribution js).map toRealLedger := by
  unfold run_model
  rw [if_neg (by decide), if_neg (by decide), if_neg (by decide),
    if_neg (by decide), if_pos rfl]

/-! ### Non-negativity of each journey step -/

theorem safe_divide_nonneg {α : Type} [LinearOrderedField α]
    [DecidableEq α] (n d : α) (hn : 0 ≤ n) (hd : 0 ≤ d) :
    0 ≤ safe_divide n d := by
  unfold safe_divide
  split_ifs
  · exact le_refl 0
  · exact div_nonneg hn hd

theorem first_touch_step_nonneg (credits : Ledger ℚ) (j : Journey)
    (l : Ledger ℚ) (hrev : 0 ≤ j.revenue.getD 1)
    (hc : ∀ p ∈ credits, 0 ≤ p.2)
    (h : first_touch_step credits j = .ok l) : ∀ p ∈ l, 0 ≤ p.2 := by
  unfold first_touch_step at h
  cases hconv : j.converted with
  | false =>
    simp only [hconv, Bool.not_false, if_true] at h
    cases h
    exact hc
  | true =>
    cases hemp : j.touchpoints.isEmpty with
    | true =>
      simp only [hconv, hemp, Bool.not_true, Bool.not_false, if_true,
        if_false, Bool.false_eq_true] at h
      cases h
      exact hc
    | false =>
      simp only [hconv, hemp, Bool.not_true, Bool.not_false, if_true,
        if_false, Bool.false_eq_true] at h
      cases hsort : sortTouchpoints j.touchpoints with
      | error e => rw [hsort, error_bind] at h; cases h
      | ok s =>
        rw [hsort, ok_bind] at h
        cases h
        exact nonneg_dadd _ _ _ hc hrev

theorem last_touch_step_nonneg (credits : Ledger ℚ) (j : Journey)
    (l : Ledger ℚ) (hrev : 0 ≤ j.revenue.getD 1)
    (hc : ∀ p ∈ credits, 0 ≤ p.2)
    (h : last_touch_step credits j = .ok l) : ∀ p ∈ l, 0 ≤ p.2 := by
  unfold last_touch_step at h
  cases hconv : j.converted with
  | false =>
    simp only [hconv, Bool.not_false, if_true] at h
    cases h
    exact hc
  | true =>
    cases hemp : j.touchpoints.isEmpty with
    | true =>
      simp only [hconv, hemp, Bool.not_true, Bool.not_false, if_true,
        if_false, Bool.false_eq_true] at h
      cases h
      exact hc
    | false =>
      simp only [hconv, hemp, Bool.not_true, Bool.not_false, if_true,
        if_false, Bool.false_eq_true] at h
      cases hsort : sortTouchpoints j.touchpoints with
      | error e => rw [hsort, error_bind] at h; cases h
      | ok s =>
        rw [hsort, ok_bind] at h
        cases h
        exact nonneg_dadd _ _ _ hc hrev

theorem linear_step_nonneg (credits : Ledger ℚ) (j : Journey)
    (hrev : 0 ≤ j.revenue.getD 1) (hc : ∀ p ∈ credits, 0 ≤ p.2) :
    ∀ p ∈ linear_step credits j, 0 ≤ p.2 := by
  unfold linear_step
  cases hconv : j.converted with
  | false =>
    simp only [Bool.not_false, if_true]
    exact hc
  | true =>
    cases hemp : j.touchpoints.isEmpty with
    | true =>
      simp only [hemp, Bool.not_true, Bool.not_false, if_true, if_false,
        Bool.false_eq_true]
      exact hc
    | false =>
      simp only [hemp, Bool.not_true, Bool.not_false, if_true, if_false,
        Bool.false_eq_true]
      apply nonneg_addCredits _ _ hc
      intro p hp
      rcases List.mem_map.mp hp with ⟨tp, htp, rfl⟩
      exact safe_divide_nonneg _ _ hrev (Nat.cast_nonneg _)

theorem position_based_step_nonneg (credits : Ledger ℚ) (j : Journey)
    (l : Ledger ℚ) (hrev : 0 ≤ j.revenue.getD 1)
    (hc : ∀ p ∈ credits, 0 ≤ p.2)
    (h : position_based_step credits j = .ok l) : ∀ p ∈ l, 0 ≤ p.2 := by
  unfold position_based_step at h
  cases hconv : j.converted with
  | false =>
    simp only [hconv, Bool.not_false, if_true] at h
    cases h
    exact hc
  | true =>
    cases hemp : j.touchpoints.isEmpty with
    | true =>
      simp only [hconv, hemp, Bool.not_true, Bool.not_false, if_true,
        if_false, Bool.false_eq_true] at h
      cases h
      exact hc
    | false =>
      simp only [hconv, hemp, Bool.not_true, Bool.not_false, if_true,
        if_false, Bool.false_eq_true] at h
      cases hsort : sortTouchpoints j.touchpoints with
      | error e => rw [hsort, error_bind] at h; cases h
      | ok s =>
        rw [hsort, ok_bind] at h
        split_ifs at h with h1 h2
        · cases h
          exact nonneg_dadd _ _ _ hc hrev
        · cases h
          apply nonneg_dadd _ _ _ (nonneg_dadd _ _ _ hc ?_) ?_
          · exact mul_nonneg hrev (by norm_num)
          · exact mul_nonneg hrev (by norm_num)
        · cases h
          apply nonneg_addCredits
          · apply nonneg_dadd _ _ _ (nonneg_dadd _ _ _ hc ?_) ?_
            · exact mul_nonneg hrev (by norm_num)
            · exact mul_nonneg hrev (by norm_num)
          · intro p hp
            rcases List.mem_map.mp hp with ⟨tp, htp, rfl⟩
            exact safe_divide_nonneg _ _ (mul_nonneg hrev (by norm_num))
              (Nat.cast_nonneg _)

theorem time_decay_step_nonneg (dr : ℝ) (credits : Ledger ℝ) (j : Journey)
    (l : Ledger ℝ) (hrev : 0 ≤ j.revenue.getD 1)
    (hc : ∀ p ∈ credits, 0 ≤ p.2)
    (h : time_decay_step dr credits j = .ok l) : ∀ p ∈ l, 0 ≤ p.2 := by
  unfold time_decay_step at h
  cases hconv : j.converted with
  | false =>
    simp only [hconv, Bool.not_false, if_true] at h
    cases h
    exact hc
  | true =>
    cases hemp : j.touchpoints.isEmpty with
    | true =>
      simp only [hconv, hemp, Bool.not_true, Bool.not_false, if_true,
        if_false, Bool.false_eq_true] at h
      cases h
      exact hc
    | false =>
      simp only [hconv, hemp, Bool.not_true, Bool.not_false, if_true,
        if_false, Bool.false_eq_true] at h
      cases hsort : sortTouchpoints j.touchpoints with
      | error e => rw [hsort, error_bind] at h; cases h
      | ok s =>
        rw [hsort, ok_bind] at h
        cases hpc : parse_timestamp (s.getLastD default).timestamp with
        | error e => rw [hpc, error_bind] at h; cases h
        | ok conv =>
          rw [hpc, ok_bind] at h
          cases hws : s.mapM (fun tp =>
            (parse_timestamp tp.timestamp).map (fun dt =>
              decayWeight dr
                (((toSeconds conv : ℝ) - (toSeconds dt : ℝ)) / 86400))) with
          | error e => rw [hws, error_bind] at h; cases h
          | ok ws =>
            rw [hws, ok_bind] at h
            have hwpos : ∀ w ∈ ws, 0 ≤ w := by
              intro w hw
              rcases mem_of_mapM_ok _ _ _ hws w hw with ⟨tp, htp, hok⟩
              cases hpt : parse_timestamp tp.timestamp with
              | error e => rw [hpt] at hok; cases hok
              | ok dt =>
                rw [hpt] at hok
                have hw2 : decayWeight dr
                    (((toSeconds conv : ℝ) - (toSeconds dt : ℝ)) / 86400)
                    = w := by cases hok; rfl
                rw [← hw2]
                exact le_of_lt (Real.exp_pos _)
            split_ifs at h with hz
            · cases h
              exact hc
            · cases h
              apply nonneg_addCredits _ _ hc
              intro p hp
              rcases List.mem_map.mp hp with ⟨q, hq, rfl⟩
              have hq2 : q.2 ∈ ws := (List.of_mem_zip hq).2
              exact mul_nonneg
                (safe_divide_nonneg _ _ (hwpos _ hq2)
                  (List.sum_nonneg hwpos))
                (by exact_mod_cast hrev)

/-! ### Per-journey contribution sums (credit conservation, journey-local) -/

theorem touchpoints_ne_nil {j : Journey} (h : eligible j = true) :
    j.touchpoints ≠ [] := by
  obtain ⟨_, hemp⟩ := eligible_split h
  intro hcon
  rw [hcon] at hemp
  simp at hemp

theorem sortTouchpointsPure_ne_nil {tps : List Touchpoint} (h : tps ≠ []) :
    sortTouchpointsPure tps ≠ [] := by
  intro hcon
  apply h
  have hlen := length_sortTouchpointsPure tps
  rw [hcon] at hlen
  exact List.length_eq_zero.mp hlen.symm

theorem map_snd_pairs {β γ : Type} (l : List β) (g : β → String)
    (c : β → γ) :
    (l.map (fun x => (g x, c x))).map Prod.snd = l.map c := by
  induction l with
  | nil => rfl
  | cons a rest ih => simp only [List.map_cons, ih]

theorem sum_map_const {β : Type} (l : List β) (c : ℚ) :
    (l.map (fun _ => c)).sum = (l.length : ℚ) * c := by
  induction l with
  | nil => simp
  | cons a rest ih =>
    rw [List.map_cons, List.sum_cons, ih, List.length_cons]
    push_cast
    ring

theorem sum_firstContrib (j : Journey) (h : eligible j = true) :
    ((firstContrib j).map Prod.snd).sum = j.revenue.getD 1 := by
  unfold firstContrib
  rw [if_pos h]
  simp

theorem sum_lastContrib (j : Journey) (h : eligible j = true) :
    ((lastContrib j).map Prod.snd).sum = j.revenue.getD 1 := by
  unfold lastContrib
  rw [if_pos h]
  simp

theorem sum_linearContrib (j : Journey) (h : eligible j = true) :
    ((linearContrib j).map Prod.snd).sum = j.revenue.getD 1 := by
  unfold linearContrib
  rw [if_pos h, map_snd_pairs, sum_map_const]
  have hne := touchpoints_ne_nil h
  have hlen : (j.touchpoints.length : ℚ) ≠ 0 := by
    have hln : j.touchpoints.length ≠ 0 :=
      fun hc => hne (List.length_eq_zero.mp hc)
    exact_mod_cast hln
  unfold safe_divide
  rw [if_neg hlen]
  field_simp

theorem sum_posContrib (j : Journey) (h : eligible j = true) :
    ((posContrib j).map Prod.snd).sum = j.revenue.getD 1 := by
  unfold posContrib
  rw [if_pos h]
  have hne := sortTouchpointsPure_ne_nil (touchpoints_ne_nil h)
  have hn0 : (sortTouchpointsPure j.touchpoints).length ≠ 0 :=
    fun hc => hne (List.length_eq_zero.mp hc)
  split_ifs with h1 h2
  · simp
  · simp only [List.map_cons, List.map_nil, List.sum_cons, List.sum_nil]
    ring
  · simp only [List.map_cons, List.sum_cons, map_snd_pairs, sum_map_const]
    have hmidlen : ((sortTouchpointsPure j.touchpoints).drop 1).dropLast.length
        = (sortTouchpointsPure j.touchpoints).length - 2 := by
      rw [List.length_dropLast, List.length_drop]
      omega
    rw [hmidlen]
    have h3 : 3 ≤ (sortTouchpointsPure j.touchpoints).length := by omega
    have hcnt : (((sortTouchpointsPure j.touchpoints).length - 2 : Nat) : ℚ)
        ≠ 0 := by
      have : (sortTouchpointsPure j.touchpoints).length - 2 ≠ 0 := by omega
      exact_mod_cast this
    unfold safe_divide
    rw [if_neg hcnt]
    field_simp
    ring

theorem zip_map_safe_divide {β : Type} (s : List β) (g : β → ℝ)
    (T R : ℝ) :
    (s.zip (s.map g)).map (fun p => safe_divide p.2 T * R) =
      s.map (fun x => safe_divide (g x) T * R) := by
  induction s with
  | nil => rfl
  | cons a rest ih => simp only [List.map_cons, List.zip_cons_cons, ih]

theorem tdWeights_sum_pos (dr : ℝ) (tps : List Touchpoint)
    (hne : tps ≠ []) : 0 < (tdWeights dr tps).sum := by
  have hne' := sortTouchpointsPure_ne_nil hne
  apply List.sum_pos
  · intro w hw
    rcases List.mem_map.mp hw with ⟨tp, _, rfl⟩
    exact Real.exp_pos _
  · unfold tdWeights
    intro hcon
    exact hne' (List.map_eq_nil_iff.mp hcon)

theorem one_mem_tdWeights (dr : ℝ) (tps : List Touchpoint)
    (hne : tps ≠ []) : (1 : ℝ) ∈ tdWeights dr tps := by
  have hne' := sortTouchpointsPure_ne_nil hne
  unfold tdWeights
  refine List.mem_map.mpr
    ⟨(sortTouchpointsPure tps).getLastD default,
      getLastD_mem _ _ hne', ?_⟩
  unfold decayWeight
  rw [sub_self, zero_div, mul_zero, Real.exp_zero]

theorem tdWeights_sum_ge_one (dr : ℝ) (tps : List Touchpoint)
    (hne : tps ≠ []) : 1 ≤ (tdWeights dr tps).sum := by
  apply List.single_le_sum ?_ 1 (one_mem_tdWeights dr tps hne)
  intro w hw
  rcases List.mem_map.mp hw with ⟨tp, _, rfl⟩
  exact le_of_lt (Real.exp_pos _)

theorem sum_share_mul {β : Type} (s : List β) (g : β → ℝ) (R : ℝ)
    (hT : (s.map g).sum ≠ 0) :
    ((s.zip (s.map g)).map
      (fun p => safe_divide p.2 ((s.map g).sum) * R)).sum = R := by
  rw [zip_map_safe_divide]
  have hfn : (fun x => safe_divide (g x) ((s.map g).sum) * R) =
      (fun x => g x * (R / (s.map g).sum)) := by
    funext x
    unfold safe_divide
    rw [if_neg hT]
    ring
  rw [hfn, List.sum_map_mul_right, mul_comm, div_mul_cancel₀ _ hT]

theorem sum_tdContrib (dr : ℝ) (j : Journey) (h : eligible j = true) :
    ((tdContrib dr j).map Prod.snd).sum = ((j.revenue.getD 1 : ℚ) : ℝ) := by
  have hpos := tdWeights_sum_pos dr j.touchpoints (touchpoints_ne_nil h)
  have hT : (tdWeights dr j.touchpoints).sum ≠ 0 := ne_of_gt hpos
  unfold tdContrib
  rw [if_pos h, if_neg hT]
  rw [map_snd_pairs]
  exact sum_share_mul (sortTouchpointsPure j.touchpoints) _ _ hT

/-! ### The chronologically latest touchpoint -/

theorem le_foldl_max (l : List Nat) (a : Nat) :
    a ≤ l.foldl max a ∧ ∀ x ∈ l, x ≤ l.foldl max a := by
  induction l generalizing a with
  | nil => simp
  | cons b rest ih =>
    rw [List.foldl_cons]
    constructor
    · exact le_trans (le_max_left a b) (ih (max a b)).1
    · intro x hx
      rcases List.mem_cons.mp hx with rfl | hr
      · exact le_trans (le_max_right a x) (ih (max a x)).1
      · exact (ih (max a b)).2 x hr

theorem foldl_max_le (l : List Nat) (a b : Nat) (ha : a ≤ b)
    (h : ∀ x ∈ l, x ≤ b) : l.foldl max a ≤ b := by
  induction l generalizing a with
  | nil => simpa
  | cons c rest ih =>
    rw [List.foldl_cons]
    exact ih (max a c) (max_le ha (h c (by simp)))
      (fun x hx => h x (by simp [hx]))

theorem getLastD_map {β γ : Type} (f : β → γ) (l : List β) (d : β) :
    (l.map f).getLastD (f d) = f (l.getLastD d) := by
  induction l generalizing d with
  | nil => rfl
  | cons a rest ih =>
    rw [List.map_cons, List.getLastD_cons, List.getLastD_cons]
    exact ih a

theorem pairwise_le_getLastD (l : List (Nat × Touchpoint))
    (d : Nat × Touchpoint)
    (hp : l.Pairwise (fun a b => keyLE a b = true)) :
    ∀ x ∈ l, x.1 ≤ (l.getLastD d).1 := by
  induction l generalizing d with
  | nil => simp
  | cons a rest ih =>
    rw [List.pairwise_cons] at hp
    obtain ⟨ha, hrest⟩ := hp
    intro x hx
    rw [List.getLastD_cons]
    rcases List.mem_cons.mp hx with rfl | hr
    · by_cases hrc : rest = []
      · subst hrc
        simp [List.getLastD]
      · have hmem : rest.getLastD x ∈ rest := getLastD_mem _ _ hrc
        have hle := ha _ hmem
        unfold keyLE at hle
        exact of_decide_eq_true hle
    · exact ih a hrest x hr

theorem keyLE_trans : ∀ a b c : Nat × Touchpoint,
    keyLE a b → keyLE b c → keyLE a c := by
  intro a b c h1 h2
  unfold keyLE at *
  exact decide_eq_true
    (le_trans (of_decide_eq_true h1) (of_decide_eq_true h2))

theorem keyLE_total : ∀ a b : Nat × Touchpoint,
    keyLE a b || keyLE b a := by
  intro a b
  unfold keyLE
  rcases le_total a.1 b.1 with h | h <;> simp [h]

theorem mergeSort_key_eq (tps : List Touchpoint) :
    ∀ q ∈ (tps.map (fun tp => (sortKey tp, tp))).mergeSort keyLE,
      q.1 = sortKey q.2 := by
  intro q hq
  rw [List.mem_mergeSort] at hq
  rcases List.mem_map.mp hq with ⟨tp, _, rfl⟩
  rfl

theorem sortKey_getLastD_max (tps : List Touchpoint) (hne : tps ≠ []) :
    sortKey ((sortTouchpointsPure tps).getLastD default) = latestKey tps := by
  have hklne : (tps.map (fun tp => (sortKey tp, tp))).mergeSort keyLE ≠ [] := by
    intro hcon
    exact sortTouchpointsPure_ne_nil hne
      (by unfold sortTouchpointsPure; rw [hcon]; rfl)
  have hpair := List.sorted_mergeSort keyLE_trans keyLE_total
    (tps.map (fun tp => (sortKey tp, tp)))
  have hlast : (sortTouchpointsPure tps).getLastD default =
      (((tps.map (fun tp => (sortKey tp, tp))).mergeSort keyLE).getLastD
        ((0 : Nat), (default : Touchpoint))).2 := by
    unfold sortTouchpointsPure
    rw [show (default : Touchpoint) =
        Prod.snd ((0 : Nat), (default : Touchpoint)) from rfl]
    rw [getLastD_map]
  apply le_antisymm
  · have hmem : (sortTouchpointsPure tps).getLastD default ∈ tps :=
      mem_sortTouchpointsPure.mp
        (getLastD_mem _ _ (sortTouchpointsPure_ne_nil hne))
    unfold latestKey
    exact (le_foldl_max (tps.map sortKey) 0).2 _
      (List.mem_map.mpr ⟨_, hmem, rfl⟩)
  · unfold latestKey
    apply foldl_max_le _ _ _ (Nat.zero_le _)
    intro x hx
    rcases List.mem_map.mp hx with ⟨tp, htp, rfl⟩
    have hq : (sortKey tp, tp) ∈
        (tps.map (fun tp => (sortKey tp, tp))).mergeSort keyLE := by
      rw [List.mem_mergeSort]
      exact List.mem_map.mpr ⟨tp, htp, rfl⟩
    have h1 := pairwise_le_getLastD _ ((0 : Nat), (default : Touchpoint))
      hpair _ hq
    have h2 := mergeSort_key_eq tps
      (((tps.map (fun tp => (sortKey tp, tp))).mergeSort keyLE).getLastD
        ((0 : Nat), (default : Touchpoint)))
      (getLastD_mem _ ((0 : Nat), (default : Touchpoint)) hklne)
    rw [hlast, ← h2]
    exact h1

/-! ### The spec's time-decay formula (for comparison with the code) -/

theorem tdWeights_eq_spec (half_life : ℚ) (tps : List Touchpoint)
    (hne : tps ≠ []) :
    tdWeights (Real.log 2 / (half_life : ℝ)) tps =
      (sortTouchpointsPure tps).map (specDecayWeight half_life tps) := by
  unfold tdWeights specDecayWeight decayWeight
  rw [sortKey_getLastD_max tps hne]

theorem tdWeights_sum_eq_spec (half_life : ℚ) (tps : List Touchpoint)
    (hne : tps ≠ []) :
    (tdWeights (Real.log 2 / (half_life : ℝ)) tps).sum =
      (tps.map (specDecayWeight half_life tps)).sum := by
  rw [tdWeights_eq_spec half_life tps hne]
  exact List.Perm.sum_eq ((sortTouchpointsPure_perm tps).map _)

/-! ### Assembly helpers for the claims -/

theorem eligible_intro {j : Journey} (hconv : j.converted = true)
    (hne : j.touchpoints ≠ []) : eligible j = true := by
  unfold eligible
  rw [hconv]
  cases htp : j.touchpoints with
  | nil => exact absurd htp hne
  | cons a l => rfl

theorem okJourney_of_parses {j : Journey} (hpar : journeyParses j = true) :
    okJourney j = true := by
  unfold okJourney
  rw [hpar]
  simp

/-- C3: position-based splits per the sorted positions. -/
theorem position_based_model_formula (j : Journey)
    (hconv : j.converted = true) (hne : j.touchpoints ≠ [])
    (hpar : journeyParses j = true) :
    ∃ L, position_based_attribution [j] = .ok L ∧
      (((sortTouchpointsPure j.touchpoints).length = 1 →
        ∀ ch, dget L ch =
          if ((sortTouchpointsPure j.touchpoints).headD default).channel = ch
          then j.revenue.getD 1 else 0) ∧
      ((sortTouchpointsPure j.touchpoints).length = 2 →
        ∀ ch, dget L ch =
          (if ((sortTouchpointsPure j.touchpoints).headD default).channel = ch
            then j.revenue.getD 1 * (0.5 : ℚ) else 0) +
          (if ((sortTouchpointsPure j.touchpoints).getLastD
              default).channel = ch
            then j.revenue.getD 1 * (0.5 : ℚ) else 0)) ∧
      (3 ≤ (sortTouchpointsPure j.touchpoints).length →
        ∀ ch, dget L ch =
          (if ((sortTouchpointsPure j.touchpoints).headD default).channel = ch
            then j.revenue.getD 1 * (0.4 : ℚ) else 0) +
          (if ((sortTouchpointsPure j.touchpoints).getLastD
              default).channel = ch
            then j.revenue.getD 1 * (0.4 : ℚ) else 0) +
          (((sortTouchpointsPure j.touchpoints).drop 1).dropLast.map
            (fun tp =>
              if tp.channel = ch then
                (j.revenue.getD 1 * (0.2 : ℚ)) /
                  (((sortTouchpointsPure j.touchpoints).length - 2 : Nat) : ℚ)
              else 0)).sum)) := by
  have helig := eligible_intro hconv hne
  have hok := okJourney_of_parses hpar
  refine ⟨addCredits [] (posContrib j), ?_, ?_, ?_, ?_⟩
  · exact position_based_eq_pure [j]
      (by intro x hx; rw [List.mem_singleton] at hx; subst hx; exact hok)
  · intro hlen ch
    rw [dget_addCredits]
    unfold posContrib
    rw [if_pos helig, if_pos hlen]
    simp [dget]
  · intro hlen ch
    rw [dget_addCredits]
    unfold posContrib
    rw [if_pos helig, if_neg (by omega), if_pos hlen]
    simp only [List.map_cons, List.map_nil, List.sum_cons, List.sum_nil,
      dget, add_zero, zero_add]
  · intro hlen ch
    rw [dget_addCredits]
    unfold posContrib
    rw [if_pos helig, if_neg (by omega), if_neg (by omega)]
    have hcnt : (((sortTouchpointsPure j.touchpoints).length - 2 : Nat) : ℚ)
        ≠ 0 := by
      have hn2 : (sortTouchpointsPure j.touchpoints).length - 2 ≠ 0 := by
        omega
      exact_mod_cast hn2
    have hfn : (fun p : String × ℚ => if p.1 = ch then p.2 else 0) ∘
        (fun tp : Touchpoint =>
          (tp.channel, safe_divide (j.revenue.getD 1 * (0.2 : ℚ))
            (((sortTouchpointsPure j.touchpoints).length - 2 : Nat) : ℚ)))
        = (fun tp : Touchpoint =>
          if tp.channel = ch then
            (j.revenue.getD 1 * (0.2 : ℚ)) /
              (((sortTouchpointsPure j.touchpoints).length - 2 : Nat) : ℚ)
          else 0) := by
      funext tp
      simp only [Function.comp_apply]
      unfold safe_divide
      rw [if_neg hcnt]
    simp only [List.map_cons, List.sum_cons, List.map_map, hfn, dget,
      zero_add]
    ring

theorem zip_ite_collapse (s : List Touchpoint) (g : Touchpoint → ℝ)
    (T R : ℝ) (ch : String) :
    ((s.zip (s.map g)).map (fun p =>
        (p.1.channel, safe_divide p.2 T * R))).map
      (fun p => if p.1 = ch then p.2 else 0) =
    s.map (fun tp =>
      if tp.channel = ch then safe_divide (g tp) T * R else 0) := by
  induction s with
  | nil => rfl
  | cons a rest ih => simp only [List.map_cons, List.zip_cons_cons, ih]

theorem tdWeights_zip_ite (dr : ℝ) (tps : List Touchpoint) (T R : ℝ)
    (ch : String) :
    (((sortTouchpointsPure tps).zip (tdWeights dr tps)).map (fun p =>
        (p.1.channel, safe_divide p.2 T * R))).map
      (fun p => if p.1 = ch then p.2 else 0) =
    (sortTouchpointsPure tps).map (fun tp =>
      if tp.channel = ch then
        safe_divide (decayWeight dr
          (((sortKey ((sortTouchpointsPure tps).getLastD default) : ℝ) -
            (sortKey tp : ℝ)) / 86400)) T * R
      else 0) := by
  unfold tdWeights
  exact zip_ite_collapse _ _ _ _ _

/-- C9: for an eligible, parseable journey and positive half-life, the
time-decay weight sum is at least `exp 0 = 1` (the latest touchpoint's
weight), so the defensive `total_weight == 0` skip branch is unreachable:
the journey step always lands in the crediting branch. -/
theorem time_decay_zero_weight_branch_unreachable (hl : ℚ) (hpos : 0 < hl)
    (j : Journey) (hconv : j.converted = true) (hne : j.touchpoints ≠ [])
    (hpar : journeyParses j = true) :
    1 ≤ (tdWeights (Real.log 2 / (hl : ℝ)) j.touchpoints).sum ∧
    (tdWeights (Real.log 2 / (hl : ℝ)) j.touchpoints).sum ≠ 0 ∧
    ∀ credits, time_decay_step (Real.log 2 / (hl : ℝ)) credits j =
      .ok (addCredits credits
        (((sortTouchpointsPure j.touchpoints).zip
          (tdWeights (Real.log 2 / (hl : ℝ)) j.touchpoints)).map (fun p =>
          (p.1.channel,
            safe_divide p.2
              (tdWeights (Real.log 2 / (hl : ℝ)) j.touchpoints).sum *
              ((j.revenue.getD 1 : ℚ) : ℝ))))) := by
  have hge := tdWeights_sum_ge_one (Real.log 2 / (hl : ℝ)) j.touchpoints hne
  have hnz : (tdWeights (Real.log 2 / (hl : ℝ)) j.touchpoints).sum ≠ 0 :=
    (lt_of_lt_of_le zero_lt_one hge).ne'
  refine ⟨hge, hnz, ?_⟩
  intro credits
  rw [time_decay_step_eq _ credits j (okJourney_of_parses hpar)]
  unfold tdContrib
  rw [if_pos (eligible_intro hconv hne), if_neg hnz]

/-- C2: the time-decay model computes exactly the spec's shares, with the
conversion anchor being the chronologically latest touchpoint (the maximal
parsed timestamp), not a separate conversion-event time. -/
theorem time_decay_model_formula (hl : ℚ) (hpos : 0 < hl) (j : Journey)
    (hconv : j.converted = true) (hne : j.touchpoints ≠ [])
    (hpar : journeyParses j = true) :
    ∃ L, time_decay_attribution [j] hl = .ok L ∧
      ∀ ch, dget L ch =
        (j.touchpoints.map (fun tp =>
          if tp.channel = ch then
            specDecayShare hl j.touchpoints tp *
              ((j.revenue.getD 1 : ℚ) : ℝ)
          else 0)).sum := by
  have helig := eligible_intro hconv hne
  have hok := okJourney_of_parses hpar
  have hTpos := tdWeights_sum_pos (Real.log 2 / (hl : ℝ)) j.touchpoints hne
  have hTne : (tdWeights (Real.log 2 / (hl : ℝ)) j.touchpoints).sum ≠ 0 :=
    ne_of_gt hTpos
  refine ⟨addCredits [] (tdContrib (Real.log 2 / (hl : ℝ)) j), ?_, ?_⟩
  · exact time_decay_eq_pure [j] hl (ne_of_gt hpos)
      (by intro x hx; rw [List.mem_singleton] at hx; subst hx; exact hok)
  · intro ch
    rw [dget_addCredits]
    unfold tdContrib
    rw [if_pos helig, if_neg hTne, tdWeights_zip_ite]
    have hfun : (fun tp : Touchpoint =>
        if tp.channel = ch then
          safe_divide (decayWeight (Real.log 2 / (hl : ℝ))
            (((sortKey ((sortTouchpointsPure j.touchpoints).getLastD
                default) : ℝ) - (sortKey tp : ℝ)) / 86400))
            (tdWeights (Real.log 2 / (hl : ℝ)) j.touchpoints).sum *
            ((j.revenue.getD 1 : ℚ) : ℝ)
        else 0) =
        (fun tp : Touchpoint =>
          if tp.channel = ch then
            specDecayShare hl j.touchpoints tp *
              ((j.revenue.getD 1 : ℚ) : ℝ)
          else 0) := by
      funext tp
      have hinner : safe_divide (decayWeight (Real.log 2 / (hl : ℝ))
          (((sortKey ((sortTouchpointsPure j.touchpoints).getLastD
              default) : ℝ) - (sortKey tp : ℝ)) / 86400))
          (tdWeights (Real.log 2 / (hl : ℝ)) j.touchpoints).sum =
          specDecayShare hl j.touchpoints tp := by
        unfold safe_divide
        rw [if_neg hTne]
        unfold specDecayShare specDecayWeight decayWeight
        rw [sortKey_getLastD_max j.touchpoints hne,
          tdWeights_sum_eq_spec hl j.touchpoints hne]
        rfl
      rw [hinner]
    rw [hfun]
    rw [List.Perm.sum_eq ((sortTouchpointsPure_perm j.touchpoints).map _)]
    simp [dget]

/-- C1: credit conservation — under every model, an eligible parseable
journey contributes exactly its revenue (default `1`) to the total credit
of the returned ledger, at whatever position it sits in the journey list. -/
theorem credit_conservation :
    ∀ name ∈ MODELS, ∀ (hl : ℚ), 0 < hl →
    ∀ (l r : List Journey) (j : Journey),
      eligible j = true → journeyParses j = true →
      (∀ x ∈ l ++ r, okJourney x = true) →
      ∃ L L', run_model name (l ++ j :: r) hl = .ok L ∧
        run_model name (l ++ r) hl = .ok L' ∧
        valsum L = valsum L' + ((j.revenue.getD 1 : ℚ) : ℝ) := by
  intro name hname hl hpos l r j helig hpar hallok
  have hok := okJourney_of_parses hpar
  have hall1 : ∀ x ∈ l ++ j :: r, okJourney x = true := by
    intro x hx
    rcases List.mem_append.mp hx with h | h
    · exact hallok x (List.mem_append_left _ h)
    · rcases List.mem_cons.mp h with rfl | h2
      · exact hok
      · exact hallok x (List.mem_append_right _ h2)
  have hsum : ∀ (contrib : Journey → List (String × ℚ)),
      ((contrib j).map Prod.snd).sum = j.revenue.getD 1 →
      valsum (processPure contrib (l ++ j :: r)) =
        valsum (processPure contrib (l ++ r)) + j.revenue.getD 1 := by
    intro contrib hcj
    rw [valsum_processPure, valsum_processPure, List.map_append,
      List.sum_append, List.map_cons, List.sum_cons, List.map_append,
      List.sum_append, hcj]
    ring
  have hsumR : ∀ (contrib : Journey → List (String × ℝ)),
      ((contrib j).map Prod.snd).sum = ((j.revenue.getD 1 : ℚ) : ℝ) →
      valsum (processPure contrib (l ++ j :: r)) =
        valsum (processPure contrib (l ++ r)) +
          ((j.revenue.getD 1 : ℚ) : ℝ) := by
    intro contrib hcj
    rw [valsum_processPure, valsum_processPure, List.map_append,
      List.sum_append, List.map_cons, List.sum_cons, List.map_append,
      List.sum_append, hcj]
    ring
  simp only [ MODELS, List.mem_cons, List.not_mem_nil, or_false] at hname
  rcases hname with rfl | rfl | rfl | rfl | rfl
  · rw [run_model_first_touch, run_model_first_touch,
      first_touch_eq_pure _ hall1, first_touch_eq_pure _ hallok]
    refine ⟨_, _, rfl, rfl, ?_⟩
    rw [valsum_toRealLedger, valsum_toRealLedger,
      hsum firstContrib (sum_firstContrib j helig)]
    push_cast
    ring
  · rw [run_model_last_touch, run_model_last_touch,
      last_touch_eq_pure _ hall1, last_touch_eq_pure _ hallok]
    refine ⟨_, _, rfl, rfl, ?_⟩
    rw [valsum_toRealLedger, valsum_toRealLedger,
      hsum lastContrib (sum_lastContrib j helig)]
    push_cast
    ring
  · rw [run_model_linear, run_model_linear, linear_eq_pure, linear_eq_pure]
    refine ⟨_, _, rfl, rfl, ?_⟩
    rw [valsum_toRealLedger, valsum_toRealLedger,
      hsum linearContrib (sum_linearContrib j helig)]
    push_cast
    ring
  · rw [run_model_time_decay, run_model_time_decay,
      time_decay_eq_pure _ hl (ne_of_gt hpos) hall1,
      time_decay_eq_pure _ hl (ne_of_gt hpos) hallok]
    exact ⟨_, _, rfl, rfl,
      hsumR (tdContrib (Real.log 2 / (hl : ℝ)))
        (sum_tdContrib _ j helig)⟩
  · rw [run_model_position_based, run_model_position_based,
      position_based_eq_pure _ hall1, position_based_eq_pure _ hallok]
    refine ⟨_, _, rfl, rfl, ?_⟩
    rw [valsum_toRealLedger, valsum_toRealLedger,
      hsum posContrib (sum_posContrib j helig)]
    push_cast
    ring

/-- C7: for every model, permuting the journey list leaves the result
unchanged — the same exception on failure, and on success a ledger with
the same key set and the same credit per channel. -/
theorem journey_order_independence :
    ∀ name ∈ MODELS, ∀ (hl : ℚ) (js js' : List Journey),
      js.Perm js' → allParses js = true →
      exceptEquiv (run_model name js hl) (run_model name js' hl) := by
  intro name hname hl js js' hperm hall
  have hok : ∀ j ∈ js, okJourney j = true := by
    intro x hx
    unfold allParses at hall
    exact okJourney_of_parses (List.all_eq_true.mp hall x hx)
  have hok' : ∀ j ∈ js', okJourney j = true :=
    fun x hx => hok x (hperm.mem_iff.mpr hx)
  have hcast : ∀ (contrib : Journey → List (String × ℚ)),
      dictEq (toRealLedger (processPure contrib js))
        (toRealLedger (processPure contrib js')) := by
    intro contrib
    have hd := processPure_perm contrib hperm
    constructor
    · intro ch
      rw [keys_toRealLedger, keys_toRealLedger]
      exact hd.1 ch
    · intro ch
      rw [dget_toRealLedger, dget_toRealLedger, hd.2 ch]
  simp only [ MODELS, List.mem_cons, List.not_mem_nil, or_false] at hname
  rcases hname with rfl | rfl | rfl | rfl | rfl
  · rw [run_model_first_touch, run_model_first_touch,
      first_touch_eq_pure _ hok, first_touch_eq_pure _ hok']
    exact hcast firstContrib
  · rw [run_model_last_touch, run_model_last_touch,
      last_touch_eq_pure _ hok, last_touch_eq_pure _ hok']
    exact hcast lastContrib
  · rw [run_model_linear, run_model_linear, linear_eq_pure, linear_eq_pure]
    exact hcast linearContrib
  · rw [run_model_time_decay, run_model_time_decay]
    by_cases hz : hl = 0
    · unfold time_decay_attribution
      rw [if_pos hz, if_pos hz]
      exact rfl
    · rw [time_decay_eq_pure _ hl hz hok, time_decay_eq_pure _ hl hz hok']
      exact processPure_perm (tdContrib (Real.log 2 / (hl : ℝ))) hperm
  · rw [run_model_position_based, run_model_position_based,
      position_based_eq_pure _ hok, position_based_eq_pure _ hok']
    exact hcast posContrib

theorem foldlM_skip {α : Type}
    (step : Ledger α → Journey → Except PyError (Ledger α)) (j : Journey)
    (hstep : ∀ credits, step credits j = .ok credits)
    (l r : List Journey) (init : Ledger α) :
    (l ++ j :: r).foldlM step init = (l ++ r).foldlM step init := by
  rw [List.foldlM_append, List.foldlM_append]
  cases hres : l.foldlM step init with
  | error e => rw [error_bind, error_bind]
  | ok b =>
    rw [ok_bind, ok_bind, List.foldlM_cons, hstep b, ok_bind]

theorem foldl_skip_linear (j : Journey) (h : eligible j = false)
    (l r : List Journey) (init : Ledger ℚ) :
    (l ++ j :: r).foldl linear_step init =
      (l ++ r).foldl linear_step init := by
  rw [List.foldl_append, List.foldl_append, List.foldl_cons,
    linear_step_skip _ _ h]

/-- C8: a journey that is unconverted or has no touchpoints contributes no
credit to any model (deleting it leaves every model's result unchanged),
yet it still counts in `total_journeys` and its touchpoints' channels
appear in `channels_observed`. -/
theorem ineligible_journey_behavior (j : Journey)
    (hskip : j.converted = false ∨ j.touchpoints = []) :
    (∀ name ∈ MODELS, ∀ (hl : ℚ) (l r : List Journey),
      run_model name (l ++ j :: r) hl = run_model name (l ++ r) hl) ∧
    (∀ l r : List Journey,
      (compute_summary (l ++ j :: r)).total_journeys =
        (compute_summary (l ++ r)).total_journeys + 1) ∧
    (∀ l r : List Journey, ∀ tp ∈ j.touchpoints,
      tp.channel ∈ (compute_summary (l ++ j :: r)).channels_observed) := by
  have helig : eligible j = false := by
    unfold eligible
    rcases hskip with h | h
    · rw [h]; rfl
    · rw [h]; simp
  refine ⟨?_, ?_, ?_⟩
  · intro name hname hl l r
    simp only [ MODELS, List.mem_cons, List.not_mem_nil, or_false] at hname
    rcases hname with rfl | rfl | rfl | rfl | rfl
    · rw [run_model_first_touch, run_model_first_touch]
      unfold first_touch_attribution
      rw [foldlM_skip _ j (fun c => first_touch_step_skip c j helig)]
    · rw [run_model_last_touch, run_model_last_touch]
      unfold last_touch_attribution
      rw [foldlM_skip _ j (fun c => last_touch_step_skip c j helig)]
    · rw [run_model_linear, run_model_linear]
      unfold linear_attribution
      rw [foldl_skip_linear j helig]
    · rw [run_model_time_decay, run_model_time_decay]
      unfold time_decay_attribution
      by_cases hz : hl = 0
      · rw [if_pos hz, if_pos hz]
      · rw [if_neg hz, if_neg hz,
          foldlM_skip _ j (fun c => time_decay_step_skip _ c j helig)]
    · rw [run_model_position_based, run_model_position_based]
      unfold position_based_attribution
      rw [foldlM_skip _ j (fun c => position_based_step_skip c j helig)]
  · intro l r
    unfold compute_summary
    simp [List.length_append]
    omega
  · intro l r tp htp
    unfold compute_summary
    simp only [List.mem_mergeSort, List.mem_dedup]
    rw [List.mem_flatMap]
    exact ⟨j, List.mem_append_right _ (List.mem_cons_self j r),
      List.mem_map.mpr ⟨tp, htp, rfl⟩⟩

/-- C10: with non-negative revenues (and a positive half-life), every
credit value in any successfully returned ledger is non-negative, for all
five models. -/
theorem ledger_nonnegativity :
    ∀ name ∈ MODELS, ∀ (hl : ℚ), 0 < hl → ∀ (js : List Journey),
      (∀ j ∈ js, 0 ≤ j.revenue.getD 1) →
      ∀ L, run_model name js hl = .ok L → ∀ p ∈ L, 0 ≤ p.2 := by
  intro name hname hl hpos js hrev L hL
  simp only [ MODELS, List.mem_cons, List.not_mem_nil, or_false] at hname
  rcases hname with rfl | rfl | rfl | rfl | rfl
  · rw [run_model_first_touch] at hL
    cases hres : first_touch_attribution js with
    | error e => rw [hres] at hL; cases hL
    | ok X =>
      rw [hres] at hL
      cases hL
      apply nonneg_toRealLedger
      exact foldlM_preserve first_touch_step (fun c => ∀ p ∈ c, 0 ≤ p.2)
        js (fun x hx credits l hP hok =>
          first_touch_step_nonneg credits x l (hrev x hx) hP hok)
        [] X (by simp) hres
  · rw [run_model_last_touch] at hL
    cases hres : last_touch_attribution js with
    | error e => rw [hres] at hL; cases hL
    | ok X =>
      rw [hres] at hL
      cases hL
      apply nonneg_toRealLedger
      exact foldlM_preserve last_touch_step (fun c => ∀ p ∈ c, 0 ≤ p.2)
        js (fun x hx credits l hP hok =>
          last_touch_step_nonneg credits x l (hrev x hx) hP hok)
        [] X (by simp) hres
  · rw [run_model_linear] at hL
    cases hL
    apply nonneg_toRealLedger
    rw [linear_eq_pure]
    apply nonneg_processPure
    intro x hx p hp
    unfold linearContrib at hp
    split_ifs at hp with he
    · rcases List.mem_map.mp hp with ⟨tp, _, rfl⟩
      exact safe_divide_nonneg _ _ (hrev x hx) (Nat.cast_nonneg _)
    · simp at hp
  · rw [run_model_time_decay] at hL
    unfold time_decay_attribution at hL
    rw [if_neg (ne_of_gt hpos)] at hL
    exact foldlM_preserve (time_decay_step (Real.log 2 / (hl : ℝ)))
      (fun c => ∀ p ∈ c, 0 ≤ p.2) js
      (fun x hx credits l hP hok =>
        time_decay_step_nonneg _ credits x l (hrev x hx) hP hok)
      [] L (by simp) hL
  · rw [run_model_position_based] at hL
    cases hres : position_based_attribution js with
    | error e => rw [hres] at hL; cases hL
    | ok X =>
      rw [hres] at hL
      cases hL
      apply nonneg_toRealLedger
      exact foldlM_preserve position_based_step (fun c => ∀ p ∈ c, 0 ≤ p.2)
        js (fun x hx credits l hP hok =>
          position_based_step_nonneg credits x l (hrev x hx) hP hok)
        [] X (by simp) hres

/-- C5 counterexample: a negative half-life raises nothing — the time-decay
model happily returns a ledger (with an inverted decay direction), instead
of failing with any invalid-parameter error. -/
theorem negative_half_life_returns_ledger :
    ∃ L, run_model ("time-decay")
      [⟨true, some 5, [⟨("email"), ("2024-01-01")⟩]⟩] (-7) = .ok L := by
  rw [run_model_time_decay]
  refine ⟨_, time_decay_eq_pure _ (-7) (by norm_num) ?_⟩
  intro x hx
  rw [List.mem_singleton] at hx
  subst hx
  decide

/-- C5 amended: the code performs no half-life validation.  A zero
half-life fails with `ZeroDivisionError` (from computing
`log(2)/half_life`), and a negative half-life is accepted silently,
returning a ledger whenever the timestamps parse. -/
theorem non_positive_half_life_behavior (js : List Journey) (hl : ℚ) :
    (hl = 0 → run_model ("time-decay") js hl =
      .error .zeroDivisionError) ∧
    (hl < 0 → allParses js = true →
      ∃ L, run_model ("time-decay") js hl = .ok L) := by
  constructor
  · intro h0
    rw [run_model_time_decay]
    unfold time_decay_attribution
    rw [if_pos h0]
  · intro hneg hall
    rw [run_model_time_decay]
    refine ⟨_, time_decay_eq_pure js hl (ne_of_lt hneg) ?_⟩
    intro x hx
    unfold allParses at hall
    exact okJourney_of_parses (List.all_eq_true.mp hall x hx)

/-- C6 counterexample: a converted journey with an absent revenue field is
counted as `0.0` by `compute_summary`, not as the `1.0` default the
attribution models use. -/
theorem summary_revenue_default_zero_counterexample :
    (compute_summary [⟨true, none, []⟩]).total_revenue = 0 ∧
    ((([⟨true, none, []⟩] : List Journey).filter
      (fun j => j.converted)).map (fun j => j.revenue.getD 1)).sum = 1 := by
  constructor
  · unfold compute_summary
    norm_num [round2, roundHalfEven]
  · norm_num

/-- C6 amended: `compute_summary` sums revenue over converted journeys with
an absent `revenue` field defaulting to `0.0` (not `1.0`), then rounds to
two decimal places. -/
theorem summary_total_revenue_default (js : List Journey) :
    (compute_summary js).total_revenue =
      round2 ((js.map (fun j =>
        if j.converted then j.revenue.getD 0 else 0)).sum) := by
  unfold compute_summary
  dsimp only
  congr 1
  induction js with
  | nil => rfl
  | cons j rest ih =>
    cases hc : j.converted with
    | true => simp [List.filter_cons, hc, ih]
    | false => simp [List.filter_cons, hc, ih]

/-! ### Concrete witnesses -/

theorem credit_conservation_witness :
    (0 : ℚ) < 7 ∧
    ∃ L L', run_model ("linear") ([] ++ journeyW1 :: []) 7 = .ok L ∧
      run_model ("linear") ([] ++ []) 7 = .ok L' ∧
      valsum L = valsum L' + ((journeyW1.revenue.getD 1 : ℚ) : ℝ) :=
  ⟨by norm_num,
    credit_conservation ("linear") (by decide) 7 (by norm_num) [] []
      journeyW1 (by decide) (by decide) (by simp)⟩

theorem time_decay_model_formula_witness :
    (0 : ℚ) < 1 ∧
    ∃ L, time_decay_attribution [journeyW2] 1 = .ok L ∧
      ∀ ch, dget L ch =
        (journeyW2.touchpoints.map (fun tp =>
          if tp.channel = ch then
            specDecayShare 1 journeyW2.touchpoints tp *
              ((journeyW2.revenue.getD 1 : ℚ) : ℝ)
          else 0)).sum :=
  ⟨by norm_num,
    time_decay_model_formula 1 (by norm_num) journeyW2
      (by decide) (by decide) (by decide)⟩

theorem position_based_model_formula_witness :
    journeyW3.converted = true ∧ journeyW3.touchpoints ≠ [] ∧
    journeyParses journeyW3 = true ∧
    ∃ L, position_based_attribution [journeyW3] = .ok L :=
  ⟨by decide, by decide, by decide,
    (position_based_model_formula journeyW3 (by decide) (by decide)
      (by decide)).elim (fun L hL => ⟨L, hL.1⟩)⟩

theorem non_positive_half_life_behavior_witness :
    run_model ("time-decay") [journeyW5] 0 = .error .zeroDivisionError ∧
    ∃ L, run_model ("time-decay") [journeyW5] (-1) = .ok L :=
  ⟨(non_positive_half_life_behavior [journeyW5] 0).1 rfl,
    (non_positive_half_life_behavior [journeyW5] (-1)).2 (by norm_num)
      (by decide)⟩

theorem journey_order_independence_witness :
    exceptEquiv (run_model ("linear") [journeyW7a, journeyW7b] 7)
      (run_model ("linear") [journeyW7b, journeyW7a] 7) :=
  journey_order_independence ("linear") (by decide) 7
    [journeyW7a, journeyW7b] [journeyW7b, journeyW7a]
    (List.Perm.swap journeyW7b journeyW7a []) (by decide)

theorem ineligible_journey_behavior_witness :
    run_model ("first-touch") ([] ++ journeyW8 :: []) 7 =
      run_model ("first-touch") ([] ++ []) 7 ∧
    (compute_summary ([] ++ journeyW8 :: [])).total_journeys =
      (compute_summary ([] ++ [])).total_journeys + 1 :=
  have h := ineligible_journey_behavior journeyW8 (Or.inl rfl)
  ⟨h.1 ("first-touch") (by decide) 7 [] [], h.2.1 [] []⟩

theorem time_decay_zero_weight_branch_unreachable_witness :
    (0 : ℚ) < 1 ∧
    1 ≤ (tdWeights (Real.log 2 / ((1 : ℚ) : ℝ))
      journeyW9.touchpoints).sum :=
  ⟨by norm_num,
    (time_decay_zero_weight_branch_unreachable 1 (by norm_num) journeyW9
      (by decide) (by decide) (by decide)).1⟩

theorem ledger_nonnegativity_witness :
    (0 : ℝ) ≤ ((("email"), ((10 : ℚ) : ℝ)) : String × ℝ).2 := by
  have h1 : linear_attribution [journeyW10] = [(("email"), (10 : ℚ))] := by
    unfold journeyW10 linear_attribution
    simp only [List.foldl_cons, List.foldl_nil]
    unfold linear_step
    norm_num [addCredits, dadd, dget, dset, safe_divide]
  exact ledger_nonnegativity ("linear") (by decide) 7 (by norm_num)
    [journeyW10]
    (by
      intro x hx
      rw [List.mem_singleton] at hx
      subst hx
      norm_num [journeyW10])
    (toRealLedger (linear_attribution [journeyW10]))
    (run_model_linear [journeyW10] 7)
    (("email"), ((10 : ℚ) : ℝ))
    (by rw [h1]; unfold toRealLedger; simp)

end AttributionAnalyzer
